import Mathlib

/-!
Verification of the TOON codec (encoder, decoder, validator) of this
repository against its natural-language specification.

The Python sources are shallowly embedded over lists of characters:
strings are modeled as List Char, Python dicts as insertion-ordered
association lists, machine integers as Int, and the decoder loop, whose
termination is input-dependent, as a fuel-indexed function where running
out of fuel (result none) models divergence of the source loop.
Unicode-sensitive Python character predicates (isdigit, isspace, lower)
are modeled on the ASCII range, which covers every input appearing in the
claims.
-/

namespace Toon

/-! ## Python string primitives -/

/-- Characters Python str.strip and str.isspace treat as whitespace
(ASCII range). -/
def isPySpace (c : Char) : Bool :=
  c = ' ' || c = '\t' || c = '\n' || c = '\x0d' || c = '\x0b' || c = '\x0c'

/-- ASCII decimal digit test, modeling str.isdigit on the inputs of interest. -/
def isDigitCh (c : Char) : Bool :=
  '0' ≤ c && c ≤ '9'

/-- Python str.lstrip (whitespace). -/
def pyLstrip (s : List Char) : List Char := s.dropWhile isPySpace

/-- Python str.rstrip (whitespace). -/
def pyRstrip (s : List Char) : List Char := (s.reverse.dropWhile isPySpace).reverse

/-- Python str.strip (whitespace). -/
def pyStrip (s : List Char) : List Char := pyRstrip (pyLstrip s)

/-- Python str.rstrip with an explicit character set, as in rstrip of a
bracket. -/
def pyRstripCh (c : Char) (s : List Char) : List Char :=
  (s.reverse.dropWhile (· = c)).reverse

/-- Number of leading whitespace characters: len(line) - len(line.lstrip()). -/
def indentOf (s : List Char) : Nat := (s.takeWhile isPySpace).length

/-- Python split on a single separator character, keeping empty pieces:
the empty string splits to one empty piece, like Python str.split. -/
def splitOnCh (c : Char) (s : List Char) : List (List Char) :=
  match s with
  | [] => [[]]
  | a :: rest =>
    match splitOnCh c rest with
    | [] => [[]]
    | piece :: pieces =>
      if a = c then [] :: piece :: pieces else (a :: piece) :: pieces

/-- Part of a string before the first occurrence of a character
(the whole string when absent), as in Python partition. -/
def beforeCh (c : Char) (s : List Char) : List Char := s.takeWhile (· ≠ c)

/-- Part of a string after the first occurrence of a character
(empty when absent), as in Python partition. -/
def afterCh (c : Char) (s : List Char) : List Char :=
  match s.dropWhile (· ≠ c) with
  | [] => []
  | _ :: rest => rest

/-- Python str.startswith for a one-character pattern on a list of chars. -/
def startsWithCh (c : Char) (s : List Char) : Bool :=
  match s with
  | [] => false
  | a :: _ => a = c

/-- Python str.endswith for a one-character pattern. -/
def endsWithCh (c : Char) (s : List Char) : Bool :=
  match s.getLast? with
  | none => false
  | some a => a = c

/-- Spaces used for indentation. -/
def spaces (n : Nat) : List Char := List.replicate n ' '

/-- Join pieces with a separator string, Python str.join. -/
def joinWith (sep : List Char) (pieces : List (List Char)) : List Char :=
  match pieces with
  | [] => []
  | [p] => p
  | p :: rest => p ++ sep ++ joinWith sep rest

/-- ASCII lowercase conversion, Python str.lower on the inputs of interest. -/
def pyLower (s : List Char) : List Char :=
  s.map fun c => if 'A' ≤ c && c ≤ 'Z' then Char.ofNat (c.toNat + 32) else c

/-! ## Decimal digit strings: Python str(int) and the digit runs accepted
by Python int() and float() -/

/-- Digit character for a value below ten. -/
def digitCh (d : Nat) : Char := Char.ofNat (48 + d)

/-- Numeric value of a digit character. -/
def digitVal (c : Char) : Nat := c.toNat - 48

/-- Most-significant-first decimal digits of a natural number, the accumulator
carries already-produced less significant digits. -/
def natToChars : Nat → List Char → List Char
  | n, acc =>
    if h : n < 10 then digitCh n :: acc
    else natToChars (n / 10) (digitCh (n % 10) :: acc)
  termination_by n _ => n
  decreasing_by exact Nat.div_lt_self (Nat.lt_of_lt_of_le (by omega) (Nat.le_of_not_lt h)) (by omega)

/-- Python str of a nonnegative integer. -/
def natStr (n : Nat) : List Char := natToChars n []

/-- Python str of an int: optional minus sign then decimal digits. -/
def intStr (i : Int) : List Char :=
  if i < 0 then '-' :: natStr i.natAbs else natStr i.natAbs

/-- Scanner for the tail of a digit run: consumes further digits, and
underscores directly followed by a digit; the accumulator always ends in a
digit, so every consumed underscore sits between two digits (PEP 515). -/
def digitRunAux (acc : List Char) : List Char → (List Char × List Char)
  | '_' :: d :: rest =>
    if isDigitCh d then digitRunAux (acc ++ [d]) rest else (acc, '_' :: d :: rest)
  | c :: rest =>
    if isDigitCh c then digitRunAux (acc ++ [c]) rest else (acc, c :: rest)
  | [] => (acc, [])

/-- Consume a run of decimal digits with PEP 515 underscores (an underscore
must sit directly between two digits); returns the digits with underscores
removed and the unconsumed rest, or none when the run does not start with a
digit. -/
def digitRun (s : List Char) : Option (List Char × List Char) :=
  match s with
  | c :: rest => if isDigitCh c then some (digitRunAux [c] rest) else none
  | [] => none

/-- Numeric value of a most-significant-first digit string. -/
def digitsToNat (ds : List Char) : Nat :=
  ds.foldl (fun a c => a * 10 + digitVal c) 0

/-- Drop one leading sign character if present. -/
def dropSign (s : List Char) : List Char :=
  match s with
  | '+' :: rest => rest
  | '-' :: rest => rest
  | _ => s

/-- Whether Python float() accepts the string: surrounding whitespace, one
optional sign, then inf, infinity or nan (case-insensitive) or a decimal
literal with optional fraction and exponent. -/
def pyFloatAccepts (s : List Char) : Bool :=
  let t := pyStrip s
  let sign := t ≠ dropSign t
  let u := dropSign t
  let low := pyLower u
  if low = "inf".data || low = "infinity".data || low = "nan".data then true
  else
    let expOk : List Char → Bool := fun r =>
      match r with
      | [] => true
      | e :: r2 =>
        if e = 'e' || e = 'E' then
          match digitRun (dropSign r2) with
          | some (_, []) => true
          | _ => false
        else false
    match digitRun u with
    | some (_, rest) =>
      match rest with
      | '.' :: frac =>
        (match digitRun frac with
         | some (_, r2) => expOk r2
         | none => expOk frac)
      | _ => expOk rest
    | none =>
      match u with
      | '.' :: frac =>
        (match digitRun frac with
         | some (_, r2) => expOk r2
         | none => false)
      | _ => (sign && false)

/-- Python int() on a string: surrounding whitespace, one optional sign, a
digit run covering the whole rest; none models ValueError. -/
def pyIntParse (s : List Char) : Option Int :=
  let t := pyStrip s
  match t with
  | '+' :: rest =>
    match digitRun rest with
    | some (ds, []) => some (Int.ofNat (digitsToNat ds))
    | _ => none
  | '-' :: rest =>
    match digitRun rest with
    | some (ds, []) => some (-(Int.ofNat (digitsToNat ds)))
    | _ => none
  | _ =>
    match digitRun t with
    | some (ds, []) => some (Int.ofNat (digitsToNat ds))
    | _ => none

/-! ## Value model

Python data handled by toon_parser.py: None, bool, int, float, str, list,
dict with string keys in insertion order.  Floats are abstracted by the
text Python would print or parse for them; no claim below depends on float
arithmetic. -/

inductive Value where
  | vnull : Value
  | vbool : Bool → Value
  | vint : Int → Value
  | vfloat : List Char → Value
  | vstr : List Char → Value
  | vlist : List Value → Value
  | vdict : List (List Char × Value) → Value

/-- Options for encoding, mirroring ToonEncodeOptions (delimiter, indent,
length marker). -/
structure EncodeOptions where
  delimiter : Char := ','
  indent : Nat := 2
  lengthMarker : Bool := false

/-- Options for decoding, mirroring ToonDecodeOptions (indent, strict). -/
structure DecodeOptions where
  indent : Nat := 2
  strict : Bool := true

/-- Python dict assignment on an insertion-ordered association list: an
existing key keeps its position and gets the new value, a new key is
appended. -/
def dictInsert (entries : List (List Char × Value)) (k : List Char) (v : Value) :
    List (List Char × Value) :=
  match entries with
  | [] => [(k, v)]
  | (k0, v0) :: rest =>
    if k0 = k then (k0, v) :: rest else (k0, v0) :: dictInsert rest k v

/-- Python dict item lookup; the call sites in the encoder only reach it for
keys present in the dict (the uniform key-set check), so the default branch
is unreachable there. -/
def dictGet (entries : List (List Char × Value)) (k : List Char) : Value :=
  match entries with
  | [] => Value.vnull
  | (k0, v0) :: rest => if k0 = k then v0 else dictGet rest k

def isDict : Value → Bool
  | Value.vdict _ => true
  | _ => false

def dictKeys : Value → List (List Char)
  | Value.vdict entries => entries.map Prod.fst
  | _ => []

/-- Python set equality of two key lists: mutual containment. -/
def sameKeySet (a b : List (List Char)) : Bool :=
  a.all (fun k => b.contains k) && b.all (fun k => a.contains k)

/-! ## Encoder of toon_parser.py -/

/-- The quoting test of toon_parser.py, function named needs-quotes there:
empty, a reserved word, number-looking with a successful float parse,
whitespace at either end, or one of the characters colon, brackets, comma,
hyphen, newline, carriage return, tab (the checked set is fixed; the
configured delimiter is not consulted).  The index -1 of the source is
rendered as the head of the reversed list. -/
def needsQuotes (value : List Char) : Bool :=
  if value = [] then true
  else if value = "true".data || value = "false".data || value = "null".data then true
  else if (isDigitCh value.head! || value.head! = '+' || value.head! = '-')
          && pyFloatAccepts value then true
  else if isPySpace value.head! || isPySpace value.reverse.head! then true
  else if (":[],-\n\x0d\t".data).any (fun c => value.contains c) then true
  else false

mutual

/-- Python str of a value, used by the format-primitive fallback for
containers; models CPython repr output for the values reachable there
(claims below never depend on this branch). -/
def pyRepr : Value → List Char
  | Value.vnull => "None".data
  | Value.vbool b => if b then "True".data else "False".data
  | Value.vint n => intStr n
  | Value.vfloat lit => lit
  | Value.vstr s => '\'' :: s ++ ['\'']
  | Value.vlist items => '[' :: joinWith ", ".data (pyReprList items) ++ [']']
  | Value.vdict entries => '{' :: joinWith ", ".data (pyReprEntries entries) ++ ['}']

def pyReprList : List Value → List (List Char)
  | [] => []
  | v :: rest => pyRepr v :: pyReprList rest

def pyReprEntries : List (List Char × Value) → List (List Char)
  | [] => []
  | (k, v) :: rest => ('\'' :: k ++ "': ".data ++ pyRepr v) :: pyReprEntries rest

end

/-- The format-primitive helper of toon_parser.py: null, lowercase booleans,
str of numbers, selectively quoted strings (no escaping), str fallback for
anything else. -/
def formatPrimitive : Value → List Char
  | Value.vnull => "null".data
  | Value.vbool b => if b then "true".data else "false".data
  | Value.vint n => intStr n
  | Value.vfloat lit => lit
  | Value.vstr s => if needsQuotes s then '"' :: s ++ ['"'] else s
  | v => pyRepr v

/-- Entry list of a dict value, empty for non-dicts; the encoder only applies
it to values that passed the dict check. -/
def dictEntriesOf : Value → List (List Char × Value)
  | Value.vdict entries => entries
  | _ => []

mutual

/-- The inner format-value worker of encode, producing the list of emitted
lines for a value at an indentation level. -/
def formatValue (o : EncodeOptions) : Value → Nat → List (List Char)
  | Value.vdict entries, level => formatEntries o entries level
  | Value.vlist items, level => formatTopList o items level
  | _, _ => []
  termination_by v _ => sizeOf v

/-- One pass of the for-loop over dict items inside format-value. -/
def formatEntries (o : EncodeOptions) : List (List Char × Value) → Nat → List (List Char)
  | [], _ => []
  | (key, val) :: rest, level => encodeEntry o key val level ++ formatEntries o rest level
  termination_by l _ => sizeOf l

/-- Lines emitted for a single dict entry by format-value: nested object,
tabular array, list array, primitive array or simple key-value. -/
def encodeEntry (o : EncodeOptions) (key : List Char) (val : Value) (level : Nat) :
    List (List Char) :=
  let pfx := spaces (o.indent * level)
  let lengthPfx : List Char := if o.lengthMarker then ['#'] else []
  match val with
  | Value.vdict entries =>
    (pfx ++ key ++ [':']) :: formatValue o (Value.vdict entries) (level + 1)
  | Value.vlist items =>
    match items with
    | first :: more =>
      if isDict first then
        if (first :: more).all
            (fun item => isDict item && sameKeySet (dictKeys item) (dictKeys first)) then
          (pfx ++ key ++ " [".data ++ lengthPfx ++ natStr (first :: more).length ++ [o.delimiter, ']'])
            :: (pfx ++ spaces o.indent ++ joinWith [o.delimiter] (dictKeys first))
            :: (first :: more).map (fun item =>
                 pfx ++ spaces o.indent ++
                   joinWith [o.delimiter]
                     ((dictKeys first).map (fun k => formatPrimitive (dictGet (dictEntriesOf item) k))))
        else
          (pfx ++ key ++ " [".data ++ lengthPfx ++ natStr (first :: more).length ++ [']'])
            :: formatDashItems o (first :: more) level
      else
        [pfx ++ key ++ " [".data ++ lengthPfx ++ natStr (first :: more).length ++ "]: ".data ++
          joinWith ", ".data ((first :: more).map formatPrimitive)]
    | [] =>
      [pfx ++ key ++ " [".data ++ lengthPfx ++ natStr (0 : Nat) ++ "]: ".data ++
        joinWith ", ".data (([] : List Value).map formatPrimitive)]
  | _ => [pfx ++ key ++ ": ".data ++ formatPrimitive val]
  termination_by sizeOf val + 1

/-- Lines for the items of a non-uniform list array: a bare dash marker line
(with a trailing space, as in the source) then the item at two levels deeper. -/
def formatDashItems (o : EncodeOptions) : List Value → Nat → List (List Char)
  | [], _ => []
  | item :: rest, level =>
    (spaces (o.indent * level) ++ spaces o.indent ++ "- ".data)
      :: (formatValue o item (level + 2) ++ formatDashItems o rest level)
  termination_by l _ => sizeOf l

/-- Top-level list handling of format-value: each item formatted at the same
level. -/
def formatTopList (o : EncodeOptions) : List Value → Nat → List (List Char)
  | [], _ => []
  | item :: rest, level => formatValue o item level ++ formatTopList o rest level
  termination_by l _ => sizeOf l

end

/-- encode-to-toon of toon_parser.py: run format-value at level 0 and join
the emitted lines with newlines. -/
def encodeToToon (data : Value) (o : EncodeOptions) : List Char :=
  joinWith "\n".data (formatValue o data 0)

/-! ## Decoder of toon_parser.py -/

/-- The parse-primitive helper: strip, strip surrounding double quotes, the
three literals, then a number (float only when a dot is present, as in the
source), else the raw string. -/
def parsePrimitive (s : List Char) : Value :=
  let v := pyStrip s
  if startsWithCh '"' v && endsWithCh '"' v then Value.vstr (v.drop 1).dropLast
  else if v = "null".data then Value.vnull
  else if v = "true".data then Value.vbool true
  else if v = "false".data then Value.vbool false
  else if v.contains '.' then
    (if pyFloatAccepts v then Value.vfloat v else Value.vstr v)
  else
    match pyIntParse v with
    | some n => Value.vint n
    | none => Value.vstr v

/-- The parse-primitive-array helper: split the inline value part on commas,
parse each nonblank piece. -/
def parsePrimitiveArray (value : List Char) : List Value :=
  ((splitOnCh ',' value).filter (fun item => pyStrip item ≠ [])).map
    (fun item => parsePrimitive (pyStrip item))

/-- Loop body of the parse-nested-object helper; the counter k equals
lines.length - i at every call, making the while loop structural.  The
returned index is the Python i - 1, a natural subtraction that agrees with
the source because every call site passes a start index of at least 1. -/
def parseNestedGo (lines : List (List Char)) (baseIndent : Nat) :
    Nat → Nat → List (List Char × Value) → (List (List Char × Value) × Nat)
  | 0, i, obj => (obj, i - 1)
  | k + 1, i, obj =>
    let line := lines.getD i []
    if pyStrip line = [] then parseNestedGo lines baseIndent k (i + 1) obj
    else if indentOf line < baseIndent then (obj, i - 1)
    else
      let stripped := pyStrip line
      if stripped.contains ':' then
        parseNestedGo lines baseIndent k (i + 1)
          (dictInsert obj (pyStrip (beforeCh ':' stripped))
            (parsePrimitive (pyStrip (afterCh ':' stripped))))
      else parseNestedGo lines baseIndent k (i + 1) obj

/-- The parse-nested-object helper of the decoder. -/
def parseNestedObject (lines : List (List Char)) (startIdx baseIndent : Nat) :
    (List (List Char × Value) × Nat) :=
  parseNestedGo lines baseIndent (lines.length - startIdx) startIdx []

/-- Row-collecting loop of the parse-tabular-array helper. -/
def parseTabularGo (lines : List (List Char)) (baseIndent : Nat) (columns : List (List Char)) :
    Nat → Nat → List Value → (List Value × Nat)
  | 0, i, items => (items, i - 1)
  | k + 1, i, items =>
    let line := lines.getD i []
    if pyStrip line = [] then parseTabularGo lines baseIndent columns k (i + 1) items
    else if indentOf line < baseIndent then (items, i - 1)
    else
      let values := (splitOnCh ',' (pyStrip line)).map pyStrip
      if values.length = columns.length then
        parseTabularGo lines baseIndent columns k (i + 1)
          (items ++ [Value.vdict (columns.zip (values.map parsePrimitive))])
      else parseTabularGo lines baseIndent columns k (i + 1) items

/-- The parse-tabular-array helper: the line at the start index is the
column-name row, following sufficiently indented lines whose comma-split
width equals the column count become rows; others are skipped. -/
def parseTabularArray (lines : List (List Char)) (startIdx baseIndent : Nat) :
    (List Value × Nat) :=
  if startIdx ≥ lines.length then ([], startIdx)
  else
    let columns := (splitOnCh ',' (pyStrip (lines.getD startIdx []))).map pyStrip
    parseTabularGo lines baseIndent columns (lines.length - (startIdx + 1)) (startIdx + 1) []

/-- The parse-list-array helper: dash-marked lines start an item parsed as a
nested object from the following line; the loop index then continues past
the object. -/
def parseListGo (lines : List (List Char)) (baseIndent : Nat) (o : DecodeOptions)
    (i : Nat) (items : List Value) : (List Value × Nat) :=
  if h : i < lines.length then
    let line := lines.getD i []
    if pyStrip line = [] then parseListGo lines baseIndent o (i + 1) items
    else if indentOf line < baseIndent then (items, i - 1)
    else if startsWithCh '-' (pyStrip line) then
      let r := parseNestedObject lines (i + 1) (indentOf line + o.indent)
      parseListGo lines baseIndent o (r.2 + 1) (items ++ [Value.vdict r.1])
    else parseListGo lines baseIndent o (i + 1) items
  else (items, i - 1)
  termination_by lines.length - i
  decreasing_by
    all_goals
      first
      | omega
      | · have hgo : ∀ k j obj,
              j - 1 ≤ (parseNestedGo lines (indentOf (lines.getD i []) + o.indent) k j obj).2 := by
            intro k
            induction k with
            | zero => intro j _o2; simp [parseNestedGo]
            | succ k ih =>
              intro j obj
              simp only [parseNestedGo]
              split
              · exact le_trans (by omega) (ih (j + 1) _)
              · split
                · simp
                · split
                  · exact le_trans (by omega) (ih (j + 1) _)
                  · exact le_trans (by omega) (ih (j + 1) _)
          have := hgo (lines.length - (i + 1)) (i + 1) []
          simp only [parseNestedObject]
          omega

/-- One fuel-indexed run of the decode-from-toon while loop.  Fuel is only
consumed by loop iterations; none models divergence of the source loop
(which is possible, see the C2 theorem). -/
def decodeLoop (o : DecodeOptions) (lines : List (List Char)) :
    Nat → Nat → List (List Char × Value) → Option (List (List Char × Value))
  | fuel, i, result =>
    if i < lines.length then
      match fuel with
      | 0 => none
      | fuel + 1 =>
        let line := lines.getD i []
        if pyStrip line = [] then decodeLoop o lines fuel (i + 1) result
        else
          let indentLevel := indentOf line
          let stripped := pyStrip line
          if stripped.contains ':' && !startsWithCh '-' stripped then
            let key := pyStrip (beforeCh ':' stripped)
            let value := pyStrip (afterCh ':' stripped)
            if i + 1 < lines.length && decide (indentOf (lines.getD (i + 1) []) > indentLevel) then
              let r := parseNestedObject lines (i + 1) (indentLevel + o.indent)
              decodeLoop o lines fuel r.2 (dictInsert result key (Value.vdict r.1))
            else if key.contains '[' then
              let arrayKey := pyStrip (beforeCh '[' key)
              let arrayInfo := pyRstripCh ']' (afterCh '[' key)
              if arrayInfo.contains ',' then
                let r := parseTabularArray lines (i + 1) (indentLevel + o.indent)
                decodeLoop o lines fuel (r.2 + 1) (dictInsert result arrayKey (Value.vlist r.1))
              else if value.contains ':' then
                decodeLoop o lines fuel (i + 1)
                  (dictInsert result arrayKey (Value.vlist (parsePrimitiveArray value)))
              else
                let r := parseListGo lines (indentLevel + o.indent) o (i + 1) []
                decodeLoop o lines fuel (r.2 + 1) (dictInsert result arrayKey (Value.vlist r.1))
            else decodeLoop o lines fuel (i + 1) (dictInsert result key (parsePrimitive value))
          else decodeLoop o lines fuel (i + 1) result
    else some result

/-- Line list the decoder works on: the whole input stripped, then split on
newlines. -/
def decodeLines (s : List Char) : List (List Char) := splitOnCh '\n' (pyStrip s)

/-- decode-from-toon of toon_parser.py.  A productive loop iteration advances
the line index, so a fuel of one more than the line count never exhausts on
a terminating run; none therefore models divergence of the source loop. -/
def decodeFromToon (s : List Char) (o : DecodeOptions) : Option Value :=
  let lines := decodeLines s
  (decodeLoop o lines (lines.length + 1) 0 []).map Value.vdict

/-! ## Validator of toon_validator.py -/

inductive VLevel where
  | strict | lenient | basic
deriving DecidableEq

/-- One validation diagnostic, mirroring the ValidationError record. -/
structure VErr where
  lineNum : Nat
  severity : List Char
  message : List Char
  context : Option (List Char)
deriving DecidableEq

/-- Mirror of ValidationResult: diagnostics partitioned by severity plus the
validity flag. -/
structure VResult where
  errors : List VErr := []
  warnings : List VErr := []
  info : List VErr := []
  isValid : Bool := true
deriving DecidableEq

def addError (r : VResult) (n : Nat) (msg : List Char) (ctx : List Char) : VResult :=
  { r with errors := r.errors ++ [⟨n, "ERROR".data, msg, some ctx⟩], isValid := false }

def addWarning (r : VResult) (n : Nat) (msg : List Char) (ctx : List Char) : VResult :=
  { r with warnings := r.warnings ++ [⟨n, "WARNING".data, msg, some ctx⟩] }

/-- Validator configuration: strictness level and expected indent unit. -/
structure VConfig where
  level : VLevel := VLevel.strict
  indent : Nat := 2

/-- Array header information record built by the header check; only its
presence is consumed by the validate loop. -/
structure HeaderInfo where
  htype : List Char
  count : Nat
  delim : Option Char
  line : Nat
deriving DecidableEq

/-- Maximal run of plain decimal digits, the regex digit-class repetition. -/
def digitSpan (s : List Char) : (List Char × List Char) :=
  (s.takeWhile isDigitCh, s.dropWhile isDigitCh)

/-- Matcher for the primitive-header tail pattern: a bracketed digit group,
optional whitespace, then a colon, anchored at the front of the suffix. -/
def tailPrim (s : List Char) : Option Nat :=
  match s with
  | '[' :: r =>
    let (ds, r2) := digitSpan r
    if ds = [] then none
    else match r2 with
      | ']' :: r3 =>
        (match r3.dropWhile isPySpace with
         | ':' :: _ => some (digitsToNat ds)
         | _ => none)
      | _ => none
  | _ => none

/-- Matcher for the tabular-header tail pattern: a bracketed digit group
immediately followed by a comma, tab or pipe before the closing bracket. -/
def tailTab (s : List Char) : Option (Nat × Char) :=
  match s with
  | '[' :: r =>
    let (ds, r2) := digitSpan r
    if ds = [] then none
    else match r2 with
      | d :: ']' :: _ =>
        if d = ',' || d = '\t' || d = '|' then some (digitsToNat ds, d) else none
      | _ => none
  | _ => none

/-- Matcher for the list-header tail pattern: a bracketed digit group alone. -/
def tailList (s : List Char) : Option Nat :=
  match s with
  | '[' :: r =>
    let (ds, r2) := digitSpan r
    if ds = [] then none
    else match r2 with
      | ']' :: _ => some (digitsToNat ds)
      | _ => none
  | _ => none

/-- Python re.match of a pattern starting with a greedy dot-star followed by
the given tail pattern: the rightmost suffix position at which the tail
matches wins, which is what backtracking from a greedy dot-star produces. -/
def searchTail {α : Type} (f : List Char → Option α) : List Char → Option α
  | [] => f []
  | c :: rest =>
    match searchTail f rest with
    | some v => some v
    | none => f (c :: rest)

/-- Mirror of the indentation check: a tab inside the leading whitespace, and
in strict mode an indent that is not a multiple of the configured unit. -/
def vValidateIndentation (cfg : VConfig) (line : List Char) : List (List Char) :=
  let indent := indentOf line
  let tabErr : List (List Char) :=
    if (line.takeWhile isPySpace).contains '\t' then
      ["Tabs found in indentation (use spaces)".data] else []
  let mulErr : List (List Char) :=
    if cfg.level = VLevel.strict then
      (if indent % cfg.indent ≠ 0 then
        ["Indentation not a multiple of ".data ++ natStr cfg.indent ++
          " (found ".data ++ natStr indent ++ [')']]
       else [])
    else []
  tabErr ++ mulErr

/-- Mirror of the array-header check: try the three header grammars in order,
report a malformed header only when brackets are present but nothing matched. -/
def vValidateArrayHeader (line : List Char) (lineNum : Nat) :
    List (List Char) × Option HeaderInfo :=
  match searchTail tailPrim line with
  | some count => ([], some ⟨"primitive".data, count, none, lineNum⟩)
  | none =>
    match searchTail tailTab line with
    | some (count, d) => ([], some ⟨"tabular".data, count, some d, lineNum⟩)
    | none =>
      match searchTail tailList line with
      | some count => ([], some ⟨"list".data, count, none, lineNum⟩)
      | none =>
        if line.contains '[' && line.contains ']' then
          (["Invalid array header format".data], none)
        else ([], none)

/-- Mirror of the key validity test: a quoted key, or an identifier of
letters, digits and underscores not starting with a digit. -/
def vIsValidKey (key : List Char) : Bool :=
  match key with
  | [] => false
  | c :: rest =>
    if startsWithCh '"' key && endsWithCh '"' key then true
    else (('a' ≤ c && c ≤ 'z') || ('A' ≤ c && c ≤ 'Z') || c = '_')
      && rest.all (fun d => ('a' ≤ d && d ≤ 'z') || ('A' ≤ d && d ≤ 'Z') || isDigitCh d || d = '_')

/-- Mirror of the value plausibility test: no opening bracket without a
closing one, and an even number of double quotes. -/
def vIsValidValue (value : List Char) : Bool :=
  if value = [] then true
  else if startsWithCh '[' value && !endsWithCh ']' value then false
  else if (value.count '"') % 2 ≠ 0 then false
  else true

/-- Mirror of the key-value check: empty or ill-formed key always, an
implausible value only in strict mode. -/
def vValidateKeyValue (cfg : VConfig) (line : List Char) : List (List Char) :=
  if !line.contains ':' then []
  else
    let key := pyStrip (beforeCh ':' line)
    let value := pyStrip (afterCh ':' line)
    let keyErr : List (List Char) :=
      if key = [] then ["Empty key".data]
      else if !vIsValidKey key then ["Invalid key format: ".data ++ key]
      else []
    let valErr : List (List Char) :=
      if value ≠ [] && !vIsValidValue value && cfg.level = VLevel.strict then
        ["Potentially invalid value: ".data ++ value]
      else []
    keyErr ++ valErr

/-- The quoting test of the validator (it differs from the parser version:
case-insensitive reserved words, digits never need quotes and the checked
character set has no comma or carriage return). -/
def vNeedsQuotes (s : List Char) : Bool :=
  if s = [] then true
  else if pyLower s = "true".data || pyLower s = "false".data || pyLower s = "null".data then true
  else if (s.filter (fun c => c ≠ '.' && c ≠ '-')).length ≠ 0
          && (s.filter (fun c => c ≠ '.' && c ≠ '-')).all isDigitCh then false
  else if pyStrip s ≠ s then true
  else if [':', '[', ']', '-', '\n', '\t'].any (fun c => s.contains c) then true
  else false

/-- Mirror of the quote-style check: unnecessary quotes, or a value with
structural characters left unquoted. -/
def vCheckQuoting (line : List Char) : List (List Char) :=
  if !line.contains ':' || startsWithCh '-' line then []
  else
    let value := pyStrip (afterCh ':' line)
    if startsWithCh '"' value && endsWithCh '"' value then
      (if !vNeedsQuotes ((value.drop 1).dropLast) then
        ["Unnecessary quotes on value: ".data ++ value]
       else [])
    else if vNeedsQuotes value then
      (if value.contains ',' || value.contains ':' || value.contains '[' then
        ["Value may need quotes: ".data ++ value]
       else [])
    else []

/-- Mirror of the type check: capitalized boolean and null literals each add
a lowercase-suggestion warning. -/
def vCheckTypes (line : List Char) : List (List Char) :=
  if !line.contains ':' || startsWithCh '-' line then []
  else
    let value := pyStrip (afterCh ':' line)
    let boolWarn : List (List Char) :=
      if value = "True".data || value = "False".data then
        ["Boolean should be lowercase: ".data ++ value ++ " → ".data ++ pyLower value]
      else []
    let nullWarn : List (List Char) :=
      if value = "None".data || value = "NULL".data || value = "Null".data then
        ["Null should be lowercase: ".data ++ value ++ " → null".data]
      else []
    boolWarn ++ nullWarn

/-- Loop state of validate: the result under construction plus the one-way
in-array flag and the stored header info. -/
structure VState where
  result : VResult
  inArray : Bool
  arrayInfo : Option HeaderInfo

/-- Body of the validate loop for one non-blank line. -/
def validateStep (cfg : VConfig) (st : VState) (lineNum : Nat) (line : List Char) : VState :=
  let byLevel : VResult → List Char → VResult := fun r msg =>
    if cfg.level = VLevel.strict then addError r lineNum msg line
    else addWarning r lineNum msg line
  let r1 := (vValidateIndentation cfg line).foldl byLevel st.result
  let st1 : VState := { st with result := r1 }
  let stripped := pyStrip line
  let st2 : VState :=
    if stripped.contains '[' && stripped.contains ']' && !st1.inArray then
      let he := vValidateArrayHeader stripped lineNum
      let r2 := he.1.foldl (fun r msg => addError r lineNum msg line) st1.result
      match he.2 with
      | some info => { result := r2, inArray := true, arrayInfo := some info }
      | none => { st1 with result := r2 }
    else st1
  let r3 :=
    if stripped.contains ':' && !startsWithCh '-' stripped then
      (vValidateKeyValue cfg stripped).foldl byLevel st2.result
    else st2.result
  let r4 := (vCheckQuoting stripped).foldl (fun r msg => addWarning r lineNum msg line) r3
  let r5 := (vCheckTypes stripped).foldl (fun r msg => addWarning r lineNum msg line) r4
  { st2 with result := r5 }

/-- The enumerate loop of validate, with one-based line numbers; blank lines
are skipped. -/
def validateGo (cfg : VConfig) : List (List Char) → Nat → VState → VState
  | [], _, st => st
  | l :: rest, n, st =>
    validateGo cfg rest (n + 1) (if pyStrip l = [] then st else validateStep cfg st n l)

/-- validate of toon_validator.py. -/
def validate (cfg : VConfig) (s : List Char) : VResult :=
  (validateGo cfg (splitOnCh '\n' s) 1 ⟨{}, false, none⟩).result

/-! ## Python value model for the old parser (toon_parser-old.py)

The old parser normalizes arbitrary Python values first, so its model keeps
the exotic host types: datetimes (carrying their isoformat text), Decimals
(carrying the float they convert to), tuples, sets, callables.  Floats are
abstracted to the cases the normalizer distinguishes: nan, the two
infinities, the two zeros, and other finite floats carried by their printed
literal. -/

inductive FloatRep where
  | nan | inf | neginf | zero | negzero
  | finite : List Char → FloatRep
deriving DecidableEq

inductive PyVal where
  | pnone : PyVal
  | pbool : Bool → PyVal
  | pint : Int → PyVal
  | pfloat : FloatRep → PyVal
  | pstr : List Char → PyVal
  | pdate : List Char → PyVal
  | pdecimal : FloatRep → PyVal
  | ptuple : List PyVal → PyVal
  | pset : List PyVal → PyVal
  | pcallable : PyVal
  | plist : List PyVal → PyVal
  | pdict : List (List Char × PyVal) → PyVal

/-- Lexicographic comparison of character lists, Python string comparison. -/
def charListLe : List Char → List Char → Bool
  | [], _ => true
  | _ :: _, [] => false
  | a :: as_, b :: bs => if a = b then charListLe as_ bs else decide (a < b)

/-- Comparison used to model Python sorted on set elements.  Python only
defines it for mutually comparable elements (numbers with numbers, strings
with strings) and raises TypeError otherwise; the catch-all arm makes the
model total on the heterogeneous sets the source never guards against (a
latent crash the spec lists as an open question). -/
def pyLe : PyVal → PyVal → Bool
  | .pint m, .pint n => decide (m ≤ n)
  | .pbool a, .pbool b => !a || b
  | .pbool a, .pint n => decide ((if a then (1 : Int) else 0) ≤ n)
  | .pint m, .pbool b => decide (m ≤ (if b then (1 : Int) else 0))
  | .pstr s, .pstr t => charListLe s t
  | _, _ => true

/-- Stable insertion into a sorted list. -/
def insertLe (x : PyVal) : List PyVal → List PyVal
  | [] => [x]
  | y :: ys => if pyLe y x then y :: insertLe x ys else x :: y :: ys

/-- Stable sort modeling Python sorted for the comparable cases. -/
def pySorted : List PyVal → List PyVal
  | [] => []
  | x :: xs => insertLe x (pySorted xs)

mutual

/-- The normalize-types helper of the old parser: datetimes to ISO strings,
Decimals to floats, tuples to lists and sets to sorted lists (in both cases
without normalizing the elements, exactly as in the source), callables and
non-finite floats to null, float zeros to integer zero, and recursion into
dicts and lists. -/
def pyNormalize : PyVal → PyVal
  | .pdate iso => .pstr iso
  | .pdecimal f => .pfloat f
  | .ptuple items => .plist items
  | .pset items => .plist (pySorted items)
  | .pcallable => .pnone
  | .pfloat .nan => .pnone
  | .pfloat .inf => .pnone
  | .pfloat .neginf => .pnone
  | .pfloat .zero => .pint 0
  | .pfloat .negzero => .pint 0
  | .pfloat (.finite lit) => .pfloat (.finite lit)
  | .pdict entries => .pdict (pyNormalizeEntries entries)
  | .plist items => .plist (pyNormalizeList items)
  | .pnone => .pnone
  | .pbool b => .pbool b
  | .pint n => .pint n
  | .pstr s => .pstr s
  termination_by v => sizeOf v

def pyNormalizeList : List PyVal → List PyVal
  | [] => []
  | v :: rest => pyNormalize v :: pyNormalizeList rest
  termination_by l => sizeOf l

def pyNormalizeEntries : List (List Char × PyVal) → List (List Char × PyVal)
  | [] => []
  | (k, v) :: rest => (k, pyNormalize v) :: pyNormalizeEntries rest
  termination_by l => sizeOf l

end

/-! ## Old parser (toon_parser-old.py): ToonParser class -/

/-- Constructor arguments of the old ToonParser. -/
structure OldConfig where
  strict : Bool := true
  indent : Nat := 2
  delimiter : Char := ','

inductive ArrayType where
  | primitive | tabular | listKind
deriving DecidableEq

def isPrimPy : PyVal → Bool
  | .pstr _ => true
  | .pint _ => true
  | .pfloat _ => true
  | .pbool _ => true
  | .pnone => true
  | _ => false

def isPdict : PyVal → Bool
  | .pdict _ => true
  | _ => false

def pdictEntries : PyVal → List (List Char × PyVal)
  | .pdict e => e
  | _ => []

def pdictKeys (v : PyVal) : List (List Char) := (pdictEntries v).map Prod.fst

def pdictValues (v : PyVal) : List PyVal := (pdictEntries v).map Prod.snd

/-- Python dict item lookup over the old value model; the encoder only
reaches it for keys guaranteed present by the uniform key-set check. -/
def pdictGet (entries : List (List Char × PyVal)) (k : List Char) : PyVal :=
  match entries with
  | [] => PyVal.pnone
  | (k0, v0) :: rest => if k0 = k then v0 else pdictGet rest k

/-- The detect-array-type classifier of the old parser: every element a
primitive gives Primitive; every element a dict with identical key sets and
primitive values gives Tabular; anything else, including the empty array,
gives List. -/
def detectArrayType (arr : List PyVal) : ArrayType :=
  match arr with
  | [] => ArrayType.listKind
  | first :: _ =>
    if arr.all isPrimPy then ArrayType.primitive
    else if arr.all isPdict then
      (if arr.all (fun it => sameKeySet (pdictKeys it) (pdictKeys first)) then
        (if arr.all (fun it => (pdictValues it).all isPrimPy) then ArrayType.tabular
         else ArrayType.listKind)
       else ArrayType.listKind)
    else ArrayType.listKind

/-- Global single-character replacement, Python str.replace with a
one-character pattern. -/
def replaceCh (c : Char) (repl : List Char) (s : List Char) : List Char :=
  s.flatMap (fun a => if a = c then repl else [a])

/-- The escape chain of the old encode-string: backslash, double quote,
newline, tab, applied in the order of the source. -/
def escapeOld (s : List Char) : List Char :=
  replaceCh '\t' "\\t".data
    (replaceCh '\n' "\\n".data
      (replaceCh '"' "\\\"".data
        (replaceCh '\\' "\\\\".data s)))

/-- The encode-string of the old parser: quote when empty, a
case-insensitive reserved word, digit-like after deleting dots and hyphens,
whitespace-trimmed differently, containing a structural character or the
configured delimiter, or containing a newline or tab; quoted strings are
escaped. -/
def oldEncodeString (cfg : OldConfig) (s : List Char) : List Char :=
  if s = []
     || (pyLower s = "true".data || pyLower s = "false".data || pyLower s = "null".data)
     || (let t := s.filter (fun c => c ≠ '.' && c ≠ '-')
         t ≠ [] && t.all isDigitCh)
     || pyStrip s ≠ s
     || ([':', '[', ']', '-', cfg.delimiter].any (fun c => s.contains c))
     || s.contains '\n' || s.contains '\t'
  then '"' :: escapeOld s ++ ['"'] else s

/-- Python str of a float for the abstracted float representation. -/
def floatStr : FloatRep → List Char
  | .nan => "nan".data
  | .inf => "inf".data
  | .neginf => "-inf".data
  | .zero => "0.0".data
  | .negzero => "-0.0".data
  | .finite lit => lit

mutual

/-- The encode-value dispatcher of the old parser.  The fuel models the
Python call stack: running out gives the error a RecursionError would give;
the wrapper passes fuel exceeding any possible recursion need. -/
def oldEncodeValue (cfg : OldConfig) : Nat → PyVal → Nat → Except (List Char) (List Char)
  | 0, _, _ => .error "maximum recursion depth exceeded".data
  | _ + 1, .pnone, _ => .ok "null".data
  | _ + 1, .pbool b, _ => .ok (if b then "true".data else "false".data)
  | _ + 1, .pint n, _ => .ok (intStr n)
  | _ + 1, .pfloat f, _ => .ok (floatStr f)
  | _ + 1, .pstr s, _ => .ok (oldEncodeString cfg s)
  | fuel + 1, .pdict entries, level => oldEncodeObject cfg fuel entries level
  | fuel + 1, .plist items, level => oldEncodeArray cfg fuel items level
  | _ + 1, _, _ => .error "Unsupported type".data
  termination_by structural fuel _ _ => fuel

/-- The encode-object of the old parser: one line list, joined with
newlines (a nested object contributes its whole multi-line text as one
entry, which the join flattens). -/
def oldEncodeObject (cfg : OldConfig) : Nat → List (List Char × PyVal) → Nat →
    Except (List Char) (List Char)
  | 0, _, _ => .error "maximum recursion depth exceeded".data
  | fuel + 1, entries, level =>
    match oldEncodeObjectGo cfg fuel entries level with
    | .ok lines => .ok (joinWith "\n".data lines)
    | .error e => .error e
  termination_by structural fuel _ _ => fuel

/-- The per-entry loop of encode-object. -/
def oldEncodeObjectGo (cfg : OldConfig) : Nat → List (List Char × PyVal) → Nat →
    Except (List Char) (List (List Char))
  | 0, _, _ => .error "maximum recursion depth exceeded".data
  | _ + 1, [], _ => .ok []
  | fuel + 1, (key, value) :: rest, level =>
    let indentStr := spaces (cfg.indent * level)
    match value with
    | .pdict entries =>
      (match oldEncodeObject cfg fuel entries (level + 1) with
       | .error e => .error e
       | .ok sub =>
         match oldEncodeObjectGo cfg fuel rest level with
         | .error e => .error e
         | .ok more => .ok ((indentStr ++ key ++ [':']) :: sub :: more))
    | .plist items =>
      (match oldEncodeArray cfg fuel items level with
       | .error e => .error e
       | .ok arrStr =>
         match oldEncodeObjectGo cfg fuel rest level with
         | .error e => .error e
         | .ok more => .ok ((indentStr ++ key ++ [' '] ++ arrStr) :: more))
    | _ =>
      (match oldEncodeValue cfg fuel value level with
       | .error e => .error e
       | .ok valueStr =>
         match oldEncodeObjectGo cfg fuel rest level with
         | .error e => .error e
         | .ok more => .ok ((indentStr ++ key ++ ": ".data ++ valueStr) :: more))
  termination_by structural fuel _ _ => fuel

/-- The encode-array of the old parser: the empty array short-circuits to a
zero list header before the classifier is consulted. -/
def oldEncodeArray (cfg : OldConfig) : Nat → List PyVal → Nat → Except (List Char) (List Char)
  | 0, _, _ => .error "maximum recursion depth exceeded".data
  | fuel + 1, arr, level =>
    if arr.isEmpty then .ok "[0]".data
    else
      match detectArrayType arr with
      | ArrayType.primitive => oldEncodePrimArray cfg fuel arr
      | ArrayType.tabular => oldEncodeTabular cfg fuel arr level
      | ArrayType.listKind => oldEncodeListArray cfg fuel arr level
  termination_by structural fuel _ _ => fuel

/-- Values of a list each encoded at a given level. -/
def oldEncodeValsGo (cfg : OldConfig) : Nat → List PyVal → Nat →
    Except (List Char) (List (List Char))
  | 0, _, _ => .error "maximum recursion depth exceeded".data
  | _ + 1, [], _ => .ok []
  | fuel + 1, v :: rest, level =>
    match oldEncodeValue cfg fuel v level with
    | .error e => .error e
    | .ok s =>
      match oldEncodeValsGo cfg fuel rest level with
      | .error e => .error e
      | .ok more => .ok (s :: more)
  termination_by structural fuel _ _ => fuel

/-- The primitive-array encoder of the old parser. -/
def oldEncodePrimArray (cfg : OldConfig) : Nat → List PyVal → Except (List Char) (List Char)
  | 0, _ => .error "maximum recursion depth exceeded".data
  | fuel + 1, arr =>
    match oldEncodeValsGo cfg fuel arr 0 with
    | .error e => .error e
    | .ok vals =>
      .ok ('[' :: natStr arr.length ++ "]: ".data ++ joinWith ", ".data vals)
  termination_by structural fuel _ => fuel

/-- The tabular-array encoder of the old parser: count header with the
delimiter inside the brackets, a column-name row, then one delimiter-joined
row per element, all rows indented one level deeper. -/
def oldEncodeTabular (cfg : OldConfig) : Nat → List PyVal → Nat → Except (List Char) (List Char)
  | 0, _, _ => .error "maximum recursion depth exceeded".data
  | fuel + 1, arr, level =>
    match arr with
    | [] => .ok "[0,]".data
    | first :: _ =>
      let keys := pdictKeys first
      let indentStr := spaces (cfg.indent * (level + 1))
      match oldEncodeTabularRows cfg fuel arr keys with
      | .error e => .error e
      | .ok rows =>
        .ok (joinWith "\n".data
          (('[' :: natStr arr.length ++ [cfg.delimiter, ']'])
            :: (indentStr ++ joinWith [cfg.delimiter] keys)
            :: rows.map (fun row => indentStr ++ joinWith [cfg.delimiter] row)))
  termination_by structural fuel _ _ => fuel

/-- Per-item loop of the tabular encoder: the values of each item in column
order, encoded at level zero. -/
def oldEncodeTabularRows (cfg : OldConfig) : Nat → List PyVal → List (List Char) →
    Except (List Char) (List (List (List Char)))
  | 0, _, _ => .error "maximum recursion depth exceeded".data
  | _ + 1, [], _ => .ok []
  | fuel + 1, item :: rest, keys =>
    match oldEncodeRowVals cfg fuel item keys with
    | .error e => .error e
    | .ok vals =>
      match oldEncodeTabularRows cfg fuel rest keys with
      | .error e => .error e
      | .ok more => .ok (vals :: more)
  termination_by structural fuel _ _ => fuel

/-- Values of one tabular row: item lookup per column key. -/
def oldEncodeRowVals (cfg : OldConfig) : Nat → PyVal → List (List Char) →
    Except (List Char) (List (List Char))
  | 0, _, _ => .error "maximum recursion depth exceeded".data
  | _ + 1, _, [] => .ok []
  | fuel + 1, item, k :: ks =>
    match oldEncodeValue cfg fuel (pdictGet (pdictEntries item) k) 0 with
    | .error e => .error e
    | .ok s =>
      match oldEncodeRowVals cfg fuel item ks with
      | .error e => .error e
      | .ok more => .ok (s :: more)
  termination_by structural fuel _ _ => fuel

/-- The list-array encoder of the old parser: count header then dash-marked
items; a dict item puts its first pair on the dash line (an empty dict item
would raise an IndexError in the source) and the remaining pairs on
following lines. -/
def oldEncodeListArray (cfg : OldConfig) : Nat → List PyVal → Nat → Except (List Char) (List Char)
  | 0, _, _ => .error "maximum recursion depth exceeded".data
  | fuel + 1, arr, level =>
    match oldEncodeListItemsGo cfg fuel arr level with
    | .error e => .error e
    | .ok lines => .ok (joinWith "\n".data (('[' :: natStr arr.length ++ [']']) :: lines))
  termination_by structural fuel _ _ => fuel

/-- Per-item loop of the list-array encoder. -/
def oldEncodeListItemsGo (cfg : OldConfig) : Nat → List PyVal → Nat →
    Except (List Char) (List (List Char))
  | 0, _, _ => .error "maximum recursion depth exceeded".data
  | _ + 1, [], _ => .ok []
  | fuel + 1, item :: rest, level =>
    let indentStr := spaces (cfg.indent * (level + 1))
    match item with
    | .pdict entries =>
      (match entries with
       | [] => .error "list index out of range".data
       | (k0, v0) :: others =>
         match oldEncodeValue cfg fuel v0 (level + 1) with
         | .error e => .error e
         | .ok v0Str =>
           match oldEncodeRestEntriesGo cfg fuel others level indentStr with
           | .error e => .error e
           | .ok restLines =>
             match oldEncodeListItemsGo cfg fuel rest level with
             | .error e => .error e
             | .ok more =>
               .ok (((indentStr ++ "- ".data ++ k0 ++ ": ".data ++ v0Str) :: restLines) ++ more))
    | _ =>
      (match oldEncodeValue cfg fuel item (level + 1) with
       | .error e => .error e
       | .ok s =>
         match oldEncodeListItemsGo cfg fuel rest level with
         | .error e => .error e
         | .ok more => .ok ((indentStr ++ "- ".data ++ s) :: more))
  termination_by structural fuel _ _ => fuel

/-- Loop over the remaining pairs of a dict item inside a list array. -/
def oldEncodeRestEntriesGo (cfg : OldConfig) : Nat → List (List Char × PyVal) → Nat →
    List Char → Except (List Char) (List (List Char))
  | 0, _, _, _ => .error "maximum recursion depth exceeded".data
  | _ + 1, [], _, _ => .ok []
  | fuel + 1, (key, value) :: rest, level, indentStr =>
    match value with
    | .pdict entries =>
      (match oldEncodeObject cfg fuel entries (level + 2) with
       | .error e => .error e
       | .ok sub =>
         match oldEncodeRestEntriesGo cfg fuel rest level indentStr with
         | .error e => .error e
         | .ok more => .ok ((indentStr ++ "  ".data ++ key ++ [':']) :: sub :: more))
    | _ =>
      (match oldEncodeValue cfg fuel value (level + 1) with
       | .error e => .error e
       | .ok valueStr =>
         match oldEncodeRestEntriesGo cfg fuel rest level indentStr with
         | .error e => .error e
         | .ok more => .ok ((indentStr ++ "  ".data ++ key ++ ": ".data ++ valueStr) :: more))
  termination_by structural fuel _ _ _ => fuel

end

/-- encode of the old parser: normalize, then encode at level zero.  The
fuel bounds the recursion depth exactly as CPython's default recursion
limit of one thousand frames does; the concrete documents evaluated below
stay far below it. -/
def oldEncode (cfg : OldConfig) (data : PyVal) : Except (List Char) (List Char) :=
  oldEncodeValue cfg 1000 (pyNormalize data) 0

/-- Error record of the old parser, the ToonParseError message and optional
one-based line number. -/
structure OldErr where
  msg : List Char
  line : Option Nat
deriving DecidableEq

/-- Global replacement of a multi-character pattern, left to right without
overlap, Python str.replace. -/
def replaceSeq (pat repl : List Char) (s : List Char) : List Char :=
  if hp : pat = [] then s
  else if ht : s.take pat.length = pat then repl ++ replaceSeq pat repl (s.drop pat.length)
  else
    match s with
    | [] => []
    | c :: r => c :: replaceSeq pat repl r
  termination_by s.length
  decreasing_by
    · have h1 : pat.length ≤ s.length := by
        have := congrArg List.length ht
        simp [List.length_take] at this
        omega
      have h2 : 0 < pat.length := by
        cases pat with
        | nil => exact absurd rfl hp
        | cons a l => simp
      simp only [List.length_drop]
      omega
    · simp

/-- The unescape chain of the old parse-value, in source order: escaped
quote, escaped backslash, escaped newline, escaped tab. -/
def unescapeOld (s : List Char) : List Char :=
  replaceSeq "\\t".data "\t".data
    (replaceSeq "\\n".data "\n".data
      (replaceSeq "\\\\".data "\\".data
        (replaceSeq "\\\"".data "\"".data s)))

/-- The parse-value of the old parser: the three literals, a quoted string
unescaped, a number (float only when a dot is present), else the raw
string. -/
def oldParseValue (s : List Char) : Value :=
  let v := pyStrip s
  if v = "null".data then Value.vnull
  else if v = "true".data then Value.vbool true
  else if v = "false".data then Value.vbool false
  else if startsWithCh '"' v && endsWithCh '"' v then
    Value.vstr (unescapeOld ((v.drop 1).dropLast))
  else if v.contains '.' then
    (if pyFloatAccepts v then Value.vfloat v else Value.vstr v)
  else
    match pyIntParse v with
    | some n => Value.vint n
    | none => Value.vstr v

/-- Matcher for the anchored primitive-array header regex of the old
parse-array: bracketed digit group with an optional delimiter, optional
whitespace, a colon, then the inline value text (nonempty, as the final
greedy any-character group demands; pure-whitespace tails backtrack to leave
the last character). -/
def oldPrimHeader (line : List Char) : Option (Nat × List Char) :=
  match line with
  | '[' :: r =>
    let (ds, r2) := digitSpan r
    if ds = [] then none
    else
      let after : Option (List Char) :=
        match r2 with
        | ']' :: r3 => some r3
        | d :: ']' :: r3 =>
          if d = ',' || d = '\t' || d = '|' then some r3 else none
        | _ => none
      match after with
      | none => none
      | some r3 =>
        match r3.dropWhile isPySpace with
        | ':' :: r4 =>
          let content := r4.dropWhile isPySpace
          if content ≠ [] then some (digitsToNat ds, content)
          else if r4 ≠ [] then some (digitsToNat ds, [r4.getLast!])
          else none
        | _ => none
  | _ => none

/-- Matcher for the anchored plain header regex of the old parse-array:
bracketed digit group with an optional delimiter. -/
def oldAnyHeader (line : List Char) : Option (Nat × Option Char) :=
  match line with
  | '[' :: r =>
    let (ds, r2) := digitSpan r
    if ds = [] then none
    else
      match r2 with
      | ']' :: _ => some (digitsToNat ds, none)
      | d :: ']' :: _ =>
        if d = ',' || d = '\t' || d = '|' then some (digitsToNat ds, some d) else none
      | _ => none
  | _ => none

/-- Row loop of the old parse-tabular-array, counting i from 0 below the
declared count: a missing row or a row of the wrong width raises, in both
modes. -/
def oldTabularRows (lines : List (List Char)) (headers : List (List Char)) (delim : Char)
    (headerIdx count : Nat) : Nat → Nat → List Value → Except OldErr (List Value)
  | 0, _, acc => .ok acc
  | rem + 1, i, acc =>
    let rowIdx := headerIdx + 1 + i
    if rowIdx ≥ lines.length then
      .error ⟨"Array has fewer rows than declared length ".data ++ natStr count, some rowIdx⟩
    else
      let values := (splitOnCh delim (pyStrip (lines.getD rowIdx []))).map pyStrip
      if values.length ≠ headers.length then
        .error ⟨"Row ".data ++ natStr (i + 1) ++ " has ".data ++ natStr values.length ++
                  " values, expected ".data ++ natStr headers.length, some (rowIdx + 1)⟩
      else
        oldTabularRows lines headers delim headerIdx count rem (i + 1)
          (acc ++ [Value.vdict (headers.zip (values.map oldParseValue))])

/-- The old parse-tabular-array: the line after the header is the column
row, then exactly the declared number of data rows. -/
def oldParseTabular (lines : List (List Char)) (headerIdx baseIndent count : Nat)
    (delim : Char) : Except OldErr (List Value × Nat) :=
  match lines.get? headerIdx with
  | none => .error ⟨"list index out of range".data, none⟩
  | some hl =>
    let headers := (splitOnCh delim (pyStrip hl)).map pyStrip
    match oldTabularRows lines headers delim headerIdx count count 0 [] with
    | .error e => .error e
    | .ok rows => .ok (rows, headerIdx + count + 1)

/-- Property loop of the old parse-object-item over the lines after the dash
line, collecting key-value pairs while the indentation stays deeper; the
counter k is the remaining line count, making the while loop structural. -/
def oldObjectItemGo (lines : List (List Char)) (indent : Nat) :
    Nat → Nat → List (List Char × Value) → (List (List Char × Value) × Nat)
  | 0, idx, item => (item, idx)
  | k + 1, idx, item =>
    let line := lines.getD idx []
    if indentOf line ≤ indent then (item, idx)
    else
      let stripped := pyStrip line
      if stripped.contains ':' && !startsWithCh '-' stripped then
        oldObjectItemGo lines indent k (idx + 1)
          (dictInsert item (pyStrip (beforeCh ':' stripped))
            (oldParseValue (pyStrip (afterCh ':' stripped))))
      else oldObjectItemGo lines indent k (idx + 1) item

/-- The old parse-object-item: the dash line may hold the first pair, the
following deeper lines the rest. -/
def oldParseObjectItem (lines : List (List Char)) (startIdx baseIndent : Nat) :
    (List (List Char × Value) × Nat) :=
  let line := lines.getD startIdx []
  let indent := indentOf line
  let stripped := pyStrip ((pyStrip line).drop 1)
  let item0 : List (List Char × Value) :=
    if stripped.contains ':' then
      dictInsert [] (pyStrip (beforeCh ':' stripped))
        (oldParseValue (pyStrip (afterCh ':' stripped)))
    else []
  oldObjectItemGo lines indent (lines.length - (startIdx + 1)) (startIdx + 1) item0

/-- Item loop of the old parse-list-array: dash lines are items, a colon on
the dash line makes an object item; the loop stops at the declared count or
the end of input. -/
def oldParseListGo (lines : List (List Char)) (baseIndent count : Nat)
    (idx itemsFound : Nat) (items : List Value) : (List Value × Nat) :=
  if h : idx < lines.length ∧ itemsFound < count then
    let line := lines.getD idx []
    let stripped := pyStrip line
    if startsWithCh '-' stripped then
      let itemContent := pyStrip (stripped.drop 1)
      if itemContent.contains ':' then
        let r := oldParseObjectItem lines idx baseIndent
        oldParseListGo lines baseIndent count (r.2) (itemsFound + 1) (items ++ [Value.vdict r.1])
      else
        oldParseListGo lines baseIndent count (idx + 1) (itemsFound + 1)
          (items ++ [oldParseValue itemContent])
    else oldParseListGo lines baseIndent count (idx + 1) itemsFound items
  else (items, idx)
  termination_by lines.length - idx
  decreasing_by
    all_goals
      first
      | omega
      | · have hgo : ∀ ind k j it, j ≤ (oldObjectItemGo lines ind k j it).2 := by
            intro ind k
            induction k with
            | zero => intro j _it; simp [oldObjectItemGo]
            | succ k ih =>
              intro j it
              simp only [oldObjectItemGo]
              split
              · simp
              · split
                · exact le_trans (by omega) (ih (j + 1) _)
                · exact le_trans (by omega) (ih (j + 1) _)
          have hitem : idx + 1 ≤ (oldParseObjectItem lines idx baseIndent).2 := by
            simp only [oldParseObjectItem]
            exact hgo _ _ _ _
          omega

/-- The old parse-list-array: run the item loop, then the strict length
check against the declared count. -/
def oldParseListArr (cfg : OldConfig) (lines : List (List Char))
    (startIdx baseIndent count : Nat) : Except OldErr (List Value × Nat) :=
  let r := oldParseListGo lines baseIndent count startIdx 0 []
  if cfg.strict && decide (r.1.length ≠ count) then
    .error ⟨"List array length mismatch: declared ".data ++ natStr count ++
              ", found ".data ++ natStr r.1.length, some startIdx⟩
  else .ok r

/-- The old parse-array dispatcher: inline primitive header first, then the
plain header deciding tabular (delimiter present) against list. -/
def oldParseArray (cfg : OldConfig) (lines : List (List Char)) (startIdx baseIndent : Nat) :
    Except OldErr (List Value × Nat) :=
  let line := pyStrip (lines.getD startIdx [])
  match oldPrimHeader line with
  | some (count, valuesStr) =>
    let values := (splitOnCh ',' valuesStr).map (fun v => oldParseValue (pyStrip v))
    if cfg.strict && decide (values.length ≠ count) then
      .error ⟨"Array length mismatch: declared ".data ++ natStr count ++
                ", found ".data ++ natStr values.length, some (startIdx + 1)⟩
    else .ok (values, startIdx + 1)
  | none =>
    match oldAnyHeader line with
    | none => .error ⟨"Invalid array header: ".data ++ line, some (startIdx + 1)⟩
    | some (count, some delim) => oldParseTabular lines (startIdx + 1) baseIndent count delim
    | some (count, none) => oldParseListArr cfg lines (startIdx + 1) baseIndent count

/-- The parse-lines loop of the old decoder with its result accumulator.
The fuel models the Python call stack and loop budget together; the
wrapper passes a bound the concrete evaluations stay far below.  In strict
mode an indent that grows by something other than a multiple of the unit
raises; a dedent ends the level. -/
def oldParseLinesGo (cfg : OldConfig) (lines : List (List Char)) :
    Nat → Nat → Nat → List (List Char × Value) →
    Except OldErr (List (List Char × Value) × Nat)
  | 0, _, _, _ => .error ⟨"maximum recursion depth exceeded".data, none⟩
  | fuel + 1, idx, currentIndent, result =>
    if idx < lines.length then
      let line := lines.getD idx []
      if pyStrip line = [] then oldParseLinesGo cfg lines fuel (idx + 1) currentIndent result
      else
        let indent := indentOf line
        if indent < currentIndent then .ok (result, idx)
        else if cfg.strict && decide (indent > currentIndent) && decide (indent % cfg.indent ≠ 0) then
          .error ⟨"Invalid indentation: ".data ++ natStr indent ++
                    " (expected multiple of ".data ++ natStr cfg.indent ++ [')'], some (idx + 1)⟩
        else
          let stripped := pyStrip line
          if stripped.contains ':' && !startsWithCh '-' stripped then
            let key := pyStrip (beforeCh ':' stripped)
            let valuePart := pyStrip (afterCh ':' stripped)
            if valuePart = [] then
              match oldParseLinesGo cfg lines fuel (idx + 1) (indent + cfg.indent) [] with
              | .error e => .error e
              | .ok (nested, idx2) =>
                oldParseLinesGo cfg lines fuel idx2 currentIndent
                  (dictInsert result key (Value.vdict nested))
            else if startsWithCh '[' valuePart then
              match oldParseArray cfg lines idx indent with
              | .error e => .error e
              | .ok (arr, idx2) =>
                oldParseLinesGo cfg lines fuel idx2 currentIndent
                  (dictInsert result key (Value.vlist arr))
            else
              oldParseLinesGo cfg lines fuel (idx + 1) currentIndent
                (dictInsert result key (oldParseValue valuePart))
          else oldParseLinesGo cfg lines fuel (idx + 1) currentIndent result
    else .ok (result, idx)

/-- decode of the old parser: parse all lines from index 0 at indent 0 and
return the collected object, dropping the final index. -/
def oldDecode (cfg : OldConfig) (s : List Char) : Except OldErr Value :=
  let lines := splitOnCh '\n' s
  match oldParseLinesGo cfg lines ((lines.length + 2) * (lines.length + 2)) 0 0 [] with
  | .error e => .error e
  | .ok (entries, _) => .ok (Value.vdict entries)

/-! ## Concrete documents and observers used by the claim theorems -/

/-- A normalized nested document: one key holding a one-entry object. -/
def c1Nested : Value := Value.vdict [("a".data, Value.vdict [("b".data, Value.vint 1)])]

/-- The same document in the old value model, to witness that it is in the
image of normalize. -/
def c1NestedPy : PyVal := PyVal.pdict [("a".data, PyVal.pdict [("b".data, PyVal.pint 1)])]

/-- Document whose tabular header declares 3 elements but whose body holds 2
data rows (the column row must not be deeper-indented than the header line,
otherwise the decoder takes the nested-object branch instead). -/
def c3Doc : List Char := "users [3,]:\nid,name\n  1,a\n  2,b".data

/-- What the decoder actually returns for the declared-3, 2-row document. -/
def c3Result : Value :=
  Value.vdict [("users".data, Value.vlist
    [Value.vdict [("id".data, Value.vint 1), ("name".data, Value.vstr ['a'])],
     Value.vdict [("id".data, Value.vint 2), ("name".data, Value.vstr ['b'])]])]

/-- Document with a tabular row of the wrong width: the header row has two
columns, the second data row only one. -/
def c6Doc : List Char := "users [2,]:\nid,name\n  1,a\n  2".data

/-- What the decoder actually returns for the wrong-width-row document: the
offending row is dropped. -/
def c6Result : Value :=
  Value.vdict [("users".data, Value.vlist
    [Value.vdict [("id".data, Value.vint 1), ("name".data, Value.vstr ['a'])]])]

/-- Input on which the decode loop never advances: a key line whose body is
indented by one space, less than one indent unit. -/
def c2Input : List Char := "a:\n b: 1".data

/-- A tuple containing a tuple, in the image of the tuple branch of
normalize. -/
def c8Input : PyVal := PyVal.ptuple [PyVal.ptuple [PyVal.pint 1, PyVal.pint 2]]

/-- Quoting predicate written from the words of the specification (claim
C5): quote exactly when the string is empty, a case-sensitive reserved
word, parses fully as a number, differs from its trimmed form, or contains
a colon, a bracket, a hyphen, the active delimiter, or a newline or tab
control character. -/
def specNeedsQuotes (delim : Char) (s : List Char) : Bool :=
  s.isEmpty
  || (s = "true".data || s = "false".data || s = "null".data)
  || pyFloatAccepts s
  || decide (pyStrip s ≠ s)
  || s.any (fun c =>
      c = ':' || c = '[' || c = ']' || c = '-' || c = delim || c = '\n' || c = '\t')

/-- Amended quoting predicate, following the code: the number test only
fires when the first character is a digit or a sign, the whitespace test is
the trim comparison, and the character set always holds the comma and the
carriage return while never consulting the configured delimiter. -/
def amendedNeedsQuotes (s : List Char) : Bool :=
  if s = [] then true
  else if s = "true".data || s = "false".data || s = "null".data then true
  else if (match s with
           | c :: _ => isDigitCh c || c = '+' || c = '-'
           | [] => false)
          && pyFloatAccepts s then true
  else if decide (pyStrip s ≠ s) then true
  else if s.any (fun c => c ∈ (":[],-\n\x0d\t".data)) then true
  else false

/-- A key-value line whose value is a capitalized boolean or null literal
(the four spellings of claim C9). -/
def capitalizedLiteralLine (l : List Char) : Prop :=
  (pyStrip l).contains ':' = true ∧ startsWithCh '-' (pyStrip l) = false ∧
  (pyStrip (afterCh ':' (pyStrip l)) = "True".data ∨
   pyStrip (afterCh ':' (pyStrip l)) = "False".data ∨
   pyStrip (afterCh ':' (pyStrip l)) = "None".data ∨
   pyStrip (afterCh ':' (pyStrip l)) = "NULL".data)

instance (l : List Char) : Decidable (capitalizedLiteralLine l) := by
  unfold capitalizedLiteralLine
  infer_instance

/-- Keys that survive the round trip: already stripped, free of colon,
opening bracket and newline, and not starting with a dash. -/
def keySafe (k : List Char) : Bool :=
  decide (pyStrip k = k) && !k.contains ':' && !k.contains '[' &&
  !k.contains '\n' && !startsWithCh '-' k

/-- String values that survive the round trip: when the encoder quotes them
they must not carry a raw newline (the encoder does not escape), and when
left bare they must not look like a quoted string or a number to the
decoder. -/
def strSafe (s : List Char) : Bool :=
  if needsQuotes s then !s.contains '\n'
  else !(startsWithCh '"' s && endsWithCh '"' s)
       && !(s.contains '.' && pyFloatAccepts s)
       && (pyIntParse s).isNone

/-- Primitive values taking part in the amended round-trip claim: null,
booleans, integers and safe strings. -/
def primSafe : Value → Bool
  | Value.vnull => true
  | Value.vbool _ => true
  | Value.vint _ => true
  | Value.vstr s => strSafe s
  | _ => false

/-- Flat documents of the amended claim C1: safe distinct keys, safe
primitive values. -/
def flatSafe (entries : List (List Char × Value)) : Prop :=
  (∀ e ∈ entries, keySafe e.1 = true ∧ primSafe e.2 = true) ∧
  (entries.map Prod.fst).Nodup

/-- The single line a flat entry encodes to. -/
def entryLine (e : List Char × Value) : List Char :=
  e.1 ++ ": ".data ++ formatPrimitive e.2

/-- Concrete flat document used to witness the amended C1 round trip. -/
def c1FlatDoc : List (List Char × Value) :=
  [("name".data, Value.vstr "Alice".data), ("age".data, Value.vint 30),
   ("active".data, Value.vbool true)]

/-! ## Claim theorems -/

theorem natToChars_eq (n : Nat) (acc : List Char) :
    natToChars n acc =
      if n < 10 then digitCh n :: acc
      else natToChars (n / 10) (digitCh (n % 10) :: acc) := by
  conv_lhs => rw [natToChars]
  split <;> rfl

theorem natToChars_append :
    ∀ (n : Nat) (acc : List Char), natToChars n acc = natToChars n [] ++ acc := by
  intro n
  induction n using Nat.strong_induction_on with
  | _ n ih =>
    intro acc
    by_cases h : n < 10
    · rw [natToChars_eq n acc, natToChars_eq n [], if_pos h, if_pos h]
      simp
    · rw [natToChars_eq n acc, natToChars_eq n [], if_neg h, if_neg h]
      have hlt : n / 10 < n := Nat.div_lt_self (by omega) (by omega)
      rw [ih _ hlt (digitCh (n % 10) :: acc), ih _ hlt (digitCh (n % 10) :: [])]
      simp

theorem isDigitCh_digitCh (d : Nat) (h : d < 10) : isDigitCh (digitCh d) = true := by
  interval_cases d <;> decide

theorem digitVal_digitCh (d : Nat) (h : d < 10) : digitVal (digitCh d) = d := by
  interval_cases d <;> decide

theorem natStr_spec (n : Nat) : natStr n ≠ [] ∧ ∀ c ∈ natStr n, isDigitCh c = true := by
  induction n using Nat.strong_induction_on with
  | _ n ih =>
    by_cases h : n < 10
    · unfold natStr
      rw [natToChars_eq n [], if_pos h]
      refine ⟨by simp, ?_⟩
      intro c hc
      simp at hc
      rw [hc]
      exact isDigitCh_digitCh n h
    · unfold natStr
      rw [natToChars_eq n [], if_neg h, natToChars_append]
      have hlt : n / 10 < n := Nat.div_lt_self (by omega) (by omega)
      obtain ⟨hne, hdig⟩ := ih _ hlt
      constructor
      · intro hcon
        rw [List.append_eq_nil] at hcon
        exact hne hcon.1
      · intro c hc
        rw [List.mem_append] at hc
        rcases hc with hc | hc
        · exact hdig c hc
        · simp at hc
          rw [hc]
          exact isDigitCh_digitCh _ (Nat.mod_lt n (by omega))
theorem digitRunAux_all_digits :
    ∀ (l acc : List Char), (∀ c ∈ l, isDigitCh c = true) →
      digitRunAux acc l = (acc ++ l, [])
  | [], acc, _ => by simp [digitRunAux]
  | c :: rest, acc, h => by
    have hc : isDigitCh c = true := h c (by simp)
    have hcu : c ≠ '_' := by
      intro hcon
      rw [hcon] at hc
      exact absurd hc (by decide)
    have hrest : ∀ x ∈ rest, isDigitCh x = true := fun x hx => h x (by simp [hx])
    show digitRunAux acc (c :: rest) = (acc ++ c :: rest, [])
    unfold digitRunAux
    split
    · rename_i heq
      injection heq with h1 h2
      exact absurd h1 hcu
    · next c2 rest2 _ heq =>
      injection heq with h1 h2
      subst h1
      subst h2
      rw [if_pos hc]
      rw [digitRunAux_all_digits rest (acc ++ [c]) hrest]
      simp
    · next heq =>
      exact absurd heq (by simp)

theorem digitRun_all_digits (s : List Char) (hne : s ≠ [])
    (h : ∀ c ∈ s, isDigitCh c = true) : digitRun s = some (s, []) := by
  cases s with
  | nil => exact absurd rfl hne
  | cons c rest =>
    show digitRun (c :: rest) = some (c :: rest, [])
    unfold digitRun
    split
    · next c2 rest2 heq =>
      injection heq with h1 h2
      subst h1
      subst h2
      rw [if_pos (h c (by simp))]
      rw [digitRunAux_all_digits rest [c] (fun x hx => h x (by simp [hx]))]
      simp
    · next heq =>
      exact absurd heq (by simp)
theorem dropWhile_eq_self_of_all (p : Char → Bool) :
    ∀ s : List Char, (∀ c ∈ s, p c = false) → s.dropWhile p = s
  | [], _ => rfl
  | c :: rest, h => by
    rw [List.dropWhile_cons, h c (by simp)]
    simp

theorem pyStrip_eq_self_of_all_nonspace (s : List Char)
    (h : ∀ c ∈ s, isPySpace c = false) : pyStrip s = s := by
  have h1 : pyLstrip s = s := dropWhile_eq_self_of_all _ s h
  have h2 : pyRstrip s = s := by
    unfold pyRstrip
    rw [dropWhile_eq_self_of_all _ s.reverse (fun c hc => h c (List.mem_reverse.mp hc))]
    exact List.reverse_reverse s
  simp [pyStrip, h1, h2]

theorem digitsToNat_natStr_aux (n : Nat) :
    ∀ a, (natStr n).foldl (fun a c => a * 10 + digitVal c) a
      = a * 10 ^ (natStr n).length + n := by
  induction n using Nat.strong_induction_on with
  | _ n ih =>
    intro a
    by_cases h : n < 10
    · have hs : natStr n = [digitCh n] := by
        unfold natStr
        rw [natToChars_eq n [], if_pos h]
      rw [hs]
      simp [List.foldl, digitVal_digitCh n h]
    · have hlt : n / 10 < n := Nat.div_lt_self (by omega) (by omega)
      have hs : natStr n = natStr (n / 10) ++ [digitCh (n % 10)] := by
        unfold natStr
        rw [natToChars_eq n [], if_neg h, natToChars_append]
      rw [hs, List.foldl_append, ih _ hlt a]
      simp only [List.foldl]
      rw [digitVal_digitCh _ (Nat.mod_lt n (by omega))]
      rw [List.length_append]
      simp [pow_succ]
      ring_nf
      omega

theorem digitsToNat_natStr (n : Nat) : digitsToNat (natStr n) = n := by
  unfold digitsToNat
  rw [digitsToNat_natStr_aux n 0]
  simp

theorem intStr_chars (n : Int) : ∀ c ∈ intStr n, isDigitCh c = true ∨ c = '-' := by
  intro c hc
  unfold intStr at hc
  split at hc
  · rcases List.mem_cons.mp hc with hc | hc
    · exact Or.inr hc
    · exact Or.inl ((natStr_spec _).2 c hc)
  · exact Or.inl ((natStr_spec _).2 c hc)

theorem isPySpace_of_digit (c : Char) (h : isDigitCh c = true) : isPySpace c = false := by
  by_contra hcon
  have hsp : isPySpace c = true := by revert hcon; cases (isPySpace c) <;> simp
  unfold isPySpace at hsp
  simp only [Bool.or_eq_true, decide_eq_true_eq] at hsp
  rcases hsp with ((((h1 | h1) | h1) | h1) | h1) | h1 <;> (subst h1; exact absurd h (by decide))

theorem intStr_strip (n : Int) : pyStrip (intStr n) = intStr n := by
  apply pyStrip_eq_self_of_all_nonspace
  intro c hc
  rcases intStr_chars n c hc with h | h
  · exact isPySpace_of_digit c h
  · rw [h]; rfl

theorem pyIntParse_intStr (n : Int) : pyIntParse (intStr n) = some n := by
  unfold pyIntParse
  rw [intStr_strip]
  rcases Int.lt_or_le n 0 with hneg | hpos
  · have hform : intStr n = '-' :: natStr n.natAbs := by
      unfold intStr
      rw [if_pos hneg]
    rw [hform]
    have hrun : digitRun (natStr n.natAbs) = some (natStr n.natAbs, []) :=
      digitRun_all_digits _ (natStr_spec _).1 (natStr_spec _).2
    dsimp only
    split
    · rename_i heq
      injection heq with h1 h2
      exact absurd h1 (by decide)
    · rename_i rest heq
      injection heq with h1 h2
      rw [← h2, hrun]
      simp only [Option.some.injEq]
      rw [digitsToNat_natStr]
      simp only [Int.ofNat_eq_natCast]
      omega
    · rename_i hne1 hne2
      exact absurd rfl (hne2 (natStr n.natAbs))
  · have hform : intStr n = natStr n.natAbs := by
      unfold intStr
      rw [if_neg (by omega)]
    obtain ⟨d, drest, hd⟩ : ∃ d drest, natStr n.natAbs = d :: drest := by
      cases hn : natStr n.natAbs with
      | nil => exact absurd hn (natStr_spec _).1
      | cons d drest => exact ⟨d, drest, rfl⟩
    have hddig : isDigitCh d = true := (natStr_spec _).2 d (by rw [hd]; simp)
    have hrun : digitRun (natStr n.natAbs) = some (natStr n.natAbs, []) :=
      digitRun_all_digits _ (natStr_spec _).1 (natStr_spec _).2
    rw [hform, hd]
    dsimp only
    split
    · rename_i heq
      injection heq with h1 h2
      rw [h1] at hddig
      exact absurd hddig (by decide)
    · rename_i heq
      injection heq with h1 h2
      rw [h1] at hddig
      exact absurd hddig (by decide)
    · rw [← hd, hrun]
      simp only [Option.some.injEq]
      rw [digitsToNat_natStr]
      simp only [Int.ofNat_eq_natCast]
      omega
theorem needsQuotes_false_parts (s : List Char) (h : needsQuotes s = false) :
    s ≠ [] ∧ (s ≠ "true".data ∧ s ≠ "false".data ∧ s ≠ "null".data) ∧
    (isPySpace s.head! = false ∧ isPySpace s.reverse.head! = false) ∧
    ((":[],-\n\x0d\t".data).any (fun c => s.contains c) = false) := by
  unfold needsQuotes at h
  split_ifs at h with h1 h2 h3 h4 h5
  refine ⟨h1, ?_, ?_, by simpa using h5⟩
  · constructor
    · intro hc
      exact h2 (by rw [hc]; simp)
    constructor
    · intro hc
      exact h2 (by rw [hc]; simp)
    · intro hc
      exact h2 (by rw [hc]; simp)
  · constructor
    · cases hh : isPySpace s.head!
      · rfl
      · exact absurd (by rw [hh]; simp) h4
    · cases hh : isPySpace s.reverse.head!
      · rfl
      · exact absurd (by rw [hh]; simp) h4
theorem intStr_shape (n : Int) :
    ∃ c0 r0, intStr n = c0 :: r0 ∧ (isDigitCh c0 = true ∨ c0 = '-') := by
  obtain ⟨c0, r0, h0⟩ : ∃ c0 r0, intStr n = c0 :: r0 := by
    unfold intStr
    split
    · exact ⟨'-', natStr n.natAbs, rfl⟩
    · cases hn : natStr n.natAbs with
      | nil => exact absurd hn (natStr_spec _).1
      | cons d drest => exact ⟨d, drest, rfl⟩
  exact ⟨c0, r0, h0, intStr_chars n c0 (by rw [h0]; simp)⟩

theorem parsePrimitive_intStr (n : Int) : parsePrimitive (intStr n) = Value.vint n := by
  obtain ⟨c0, r0, h0, hc0⟩ := intStr_shape n
  have hq : startsWithCh '"' (intStr n) = false := by
    rw [h0]
    unfold startsWithCh
    rcases hc0 with hd | hd
    · by_cases he : c0 = '"'
      · rw [he] at hd
        exact absurd hd (by decide)
      · simpa using he
    · rw [hd]
      simp
  have hlits : intStr n ≠ "null".data ∧ intStr n ≠ "true".data ∧ intStr n ≠ "false".data := by
    refine ⟨?_, ?_, ?_⟩ <;>
      (intro hcon
       rw [h0] at hcon
       injection hcon with hh _
       rw [hh] at hc0
       rcases hc0 with hd | hd <;> exact absurd hd (by decide))
  have hdot : (intStr n).contains '.' = false := by
    cases hcon : (intStr n).contains '.'
    · rfl
    · have : '.' ∈ intStr n := by
        simpa [List.contains] using hcon
      rcases intStr_chars n '.' this with hd | hd <;> exact absurd hd (by decide)
  unfold parsePrimitive
  dsimp only
  rw [intStr_strip, hq]
  simp only [Bool.false_and, Bool.false_eq_true, if_false]
  rw [if_neg hlits.1, if_neg hlits.2.1, if_neg hlits.2.2]
  rw [hdot]
  simp only [Bool.false_eq_true, if_false]
  rw [pyIntParse_intStr]
theorem dropWhile_length_le (p : Char → Bool) :
    ∀ l : List Char, (l.dropWhile p).length ≤ l.length
  | [] => by simp
  | c :: rest => by
    by_cases h : p c
    · simp only [List.dropWhile_cons, h, if_true]
      exact le_trans (dropWhile_length_le p rest) (by rw [List.length_cons]; omega)
    · simp [List.dropWhile_cons, h]

theorem pyStrip_eq_self_iff (c : Char) (rest : List Char) :
    pyStrip (c :: rest) = c :: rest ↔
      (¬ isPySpace c ∧ ¬ isPySpace ((c :: rest).reverse.head!)) := by
  obtain ⟨d, t, hdt⟩ : ∃ d t, (c :: rest).reverse = d :: t := by
    cases hr : (c :: rest).reverse with
    | nil => exact absurd (List.reverse_eq_nil_iff.mp hr) (by simp)
    | cons d t => exact ⟨d, t, rfl⟩
  constructor
  · intro h
    constructor
    · intro hc
      have hlen : (pyStrip (c :: rest)).length ≤ rest.length := by
        have h1 : pyLstrip (c :: rest) = rest.dropWhile isPySpace := by
          simp [pyLstrip, List.dropWhile_cons, hc]
        have h2 : (pyRstrip (pyLstrip (c :: rest))).length ≤ (pyLstrip (c :: rest)).length := by
          simp only [pyRstrip, List.length_reverse]
          exact le_trans (dropWhile_length_le _ _) (by simp)
        calc (pyStrip (c :: rest)).length
            ≤ (pyLstrip (c :: rest)).length := h2
          _ = (rest.dropWhile isPySpace).length := by rw [h1]
          _ ≤ rest.length := dropWhile_length_le _ _
      have hlc := congrArg List.length h
      rw [List.length_cons] at hlc
      omega
    · intro hd
      have hdh : (c :: rest).reverse.head! = d := by rw [hdt]; rfl
      rw [hdh] at hd
      by_cases hc : isPySpace c
      · have hlen : (pyStrip (c :: rest)).length ≤ rest.length := by
          have h1 : pyLstrip (c :: rest) = rest.dropWhile isPySpace := by
            simp [pyLstrip, List.dropWhile_cons, hc]
          have h2 : (pyRstrip (pyLstrip (c :: rest))).length ≤ (pyLstrip (c :: rest)).length := by
            simp only [pyRstrip, List.length_reverse]
            exact le_trans (dropWhile_length_le _ _) (by simp)
          calc (pyStrip (c :: rest)).length
              ≤ (pyLstrip (c :: rest)).length := h2
            _ = (rest.dropWhile isPySpace).length := by rw [h1]
            _ ≤ rest.length := dropWhile_length_le _ _
        have hlc := congrArg List.length h
        rw [List.length_cons] at hlc
        omega
      · have h1 : pyLstrip (c :: rest) = c :: rest := by
          simp [pyLstrip, List.dropWhile_cons, hc]
        have h2 : (pyStrip (c :: rest)).length ≤ t.length := by
          simp only [pyStrip, h1, pyRstrip, List.length_reverse, hdt,
            List.dropWhile_cons, hd, if_true]
          exact dropWhile_length_le _ _
        have h3 : t.length + 1 = rest.length + 1 := by
          have h4 := congrArg List.length hdt
          simp at h4
          omega
        have hlc := congrArg List.length h
        rw [List.length_cons] at hlc
        omega
  · intro ⟨h1, h2⟩
    have hl : pyLstrip (c :: rest) = c :: rest := by
      simp [pyLstrip, List.dropWhile_cons, h1]
    have hdh : (c :: rest).reverse.head! = d := by rw [hdt]; rfl
    rw [hdh] at h2
    have hr : pyRstrip (c :: rest) = c :: rest := by
      simp only [pyRstrip, hdt, List.dropWhile_cons, h2]
      simp [← hdt]
    simp [pyStrip, hl, hr]


theorem quoted_strip (s : List Char) :
    pyStrip ('"' :: s ++ ['"']) = '"' :: s ++ ['"'] := by
  rw [List.cons_append]
  apply (pyStrip_eq_self_iff '"' (s ++ ['"'])).mpr
  refine ⟨by decide, ?_⟩
  have hrev : ('"' :: (s ++ ['"'])).reverse.head! = '"' := by
    rw [List.reverse_cons, List.reverse_append]
    rfl
  rw [hrev]
  decide

theorem parsePrimitive_quoted (s : List Char) :
    parsePrimitive ('"' :: s ++ ['"']) = Value.vstr s := by
  unfold parsePrimitive
  dsimp only
  rw [quoted_strip]
  have hstart : startsWithCh '"' ('"' :: s ++ ['"']) = true := rfl
  have hends : endsWithCh '"' ('"' :: s ++ ['"']) = true := by
    unfold endsWithCh
    rw [show ('"' :: s ++ ['"']) = ('"' :: s) ++ ['"'] from rfl, List.getLast?_concat]
    simp
  rw [hstart, hends]
  simp only [Bool.and_self, if_true]
  rw [show ('"' :: s ++ ['"']).drop 1 = s ++ ['"'] from rfl, List.dropLast_concat]

theorem parsePrimitive_unquoted (s : List Char) (hq : needsQuotes s = false)
    (hsafe : !(startsWithCh '"' s && endsWithCh '"' s)
       && !(s.contains '.' && pyFloatAccepts s)
       && (pyIntParse s).isNone = true) :
    parsePrimitive s = Value.vstr s := by
  obtain ⟨hne, hlits, hws, _⟩ := needsQuotes_false_parts s hq
  simp only [Bool.and_eq_true, Bool.not_eq_true'] at hsafe
  obtain ⟨⟨hqs, hdotf⟩, hint⟩ := hsafe
  obtain ⟨c, rest, hcr⟩ : ∃ c rest, s = c :: rest := by
    cases s with
    | nil => exact absurd rfl hne
    | cons c rest => exact ⟨c, rest, rfl⟩
  have hstrip : pyStrip s = s := by
    rw [hcr]
    apply (pyStrip_eq_self_iff c rest).mpr
    constructor
    · rw [hcr] at hws
      simpa using hws.1
    · rw [hcr] at hws
      simpa using hws.2
  unfold parsePrimitive
  dsimp only
  rw [hstrip, hqs]
  simp only [Bool.false_eq_true, if_false]
  rw [if_neg hlits.2.2, if_neg hlits.1, if_neg hlits.2.1]
  cases hdot : s.contains '.' with
  | true =>
    rw [hdot] at hdotf
    simp only [Bool.true_and] at hdotf
    simp only [if_true]
    rw [hdotf]
    simp
  | false =>
    simp only [Bool.false_eq_true, if_false]
    cases hip : pyIntParse s with
    | none => rfl
    | some m =>
      rw [hip] at hint
      simp [Option.isNone] at hint
theorem getD_append_mid (pre : List (List Char)) (l : List Char) (t : List (List Char)) :
    (pre ++ l :: t).getD pre.length [] = l := by
  induction pre with
  | nil => rfl
  | cons p ps ih => simpa using ih

theorem dictInsert_not_mem (acc : List (List Char × Value)) (k : List Char) (v : Value)
    (h : k ∉ acc.map Prod.fst) : dictInsert acc k v = acc ++ [(k, v)] := by
  induction acc with
  | nil => rfl
  | cons a rest ih =>
    obtain ⟨a1, a2⟩ := a
    have hne : a1 ≠ k := by
      intro hcon
      subst hcon
      exact h (by rw [List.map_cons]; exact List.mem_cons_self _ _)
    unfold dictInsert
    rw [if_neg hne, List.cons_append]
    have hrest : k ∉ rest.map Prod.fst := by
      intro hc
      exact h (by rw [List.map_cons]; exact List.mem_cons_of_mem _ hc)
    rw [ih hrest]

theorem takeWhile_append_all (p : Char → Bool) (k : List Char) (t : List Char)
    (h : ∀ c ∈ k, p c = true) : (k ++ t).takeWhile p = k ++ t.takeWhile p := by
  induction k with
  | nil => rfl
  | cons c rest ih =>
    rw [List.cons_append, List.takeWhile_cons, h c (by simp)]
    simp only [if_true]
    rw [ih (fun x hx => h x (by simp [hx]))]
    simp

theorem dropWhile_append_all (p : Char → Bool) (k : List Char) (t : List Char)
    (h : ∀ c ∈ k, p c = true) : (k ++ t).dropWhile p = t.dropWhile p := by
  induction k with
  | nil => rfl
  | cons c rest ih =>
    rw [List.cons_append, List.dropWhile_cons, h c (by simp)]
    simp only [if_true]
    exact ih (fun x hx => h x (by simp [hx]))

theorem revHead_append (l t : List Char) (ht : t ≠ []) :
    ((l ++ t).reverse).head! = t.reverse.head! := by
  obtain ⟨d, u, hdu⟩ : ∃ d u, t.reverse = d :: u := by
    cases hr : t.reverse with
    | nil => exact absurd (by simpa using congrArg List.reverse hr) ht
    | cons d u => exact ⟨d, u, rfl⟩
  rw [List.reverse_append, hdu]
  rfl

theorem edge_nonspace (s : List Char) (hne : s ≠ []) (h : ∀ c ∈ s, isPySpace c = false) :
    isPySpace s.head! = false ∧ isPySpace s.reverse.head! = false := by
  obtain ⟨c, r, hcr⟩ : ∃ c r, s = c :: r := by
    cases s with
    | nil => exact absurd rfl hne
    | cons c r => exact ⟨c, r, rfl⟩
  obtain ⟨d, u, hdu⟩ : ∃ d u, s.reverse = d :: u := by
    cases hr : s.reverse with
    | nil => exact absurd (by simpa using congrArg List.reverse hr) hne
    | cons d u => exact ⟨d, u, rfl⟩
  constructor
  · rw [hcr]
    exact h c (by rw [hcr]; simp)
  · rw [hdu]
    have hd : d ∈ s.reverse := by rw [hdu]; simp
    exact h d (List.mem_reverse.mp hd)

theorem strip_self_of_edges (s : List Char) (hne : s ≠ [])
    (h1 : isPySpace s.head! = false) (h2 : isPySpace s.reverse.head! = false) :
    pyStrip s = s := by
  obtain ⟨c, r, hcr⟩ : ∃ c r, s = c :: r := by
    cases s with
    | nil => exact absurd rfl hne
    | cons c r => exact ⟨c, r, rfl⟩
  subst hcr
  exact (pyStrip_eq_self_iff c r).mpr ⟨by simpa using h1, by simpa using h2⟩

theorem pyStrip_cons_space (c : Char) (l : List Char) (h : isPySpace c = true) :
    pyStrip (c :: l) = pyStrip l := by
  unfold pyStrip pyLstrip
  rw [List.dropWhile_cons, h]
  simp

theorem indentOf_zero (s : List Char) (hne : s ≠ []) (h : isPySpace s.head! = false) :
    indentOf s = 0 := by
  obtain ⟨c, r, hcr⟩ : ∃ c r, s = c :: r := by
    cases s with
    | nil => exact absurd rfl hne
    | cons c r => exact ⟨c, r, rfl⟩
  subst hcr
  unfold indentOf
  rw [List.takeWhile_cons, show isPySpace c = false from by simpa using h]
  rfl

theorem splitOnCh_ne_nil (c : Char) : ∀ t : List Char, splitOnCh c t ≠ []
  | [] => by simp [splitOnCh]
  | a :: r => by
    unfold splitOnCh
    cases hs : splitOnCh c r with
    | nil => simp
    | cons piece pieces =>
      split
      · simp
      · split <;> simp

theorem splitOnCh_no_sep (c : Char) (l : List Char) (h : l.contains c = false) :
    splitOnCh c l = [l] := by
  induction l with
  | nil => rfl
  | cons a rest ih =>
    have hrest : rest.contains c = false := by
      cases hr : rest.contains c
      · rfl
      · have hmem : c ∈ a :: rest := by
          simp [List.contains] at hr ⊢
          exact Or.inr hr
        rw [show (a :: rest).contains c = true from by simpa [List.contains] using hmem] at h
        exact absurd h (by simp)
    have hac : a ≠ c := by
      intro hcon
      have hmem : (a :: rest).contains c = true := by simp [List.contains, hcon.symm]
      rw [hmem] at h
      exact absurd h (by simp)
    unfold splitOnCh
    rw [ih hrest]
    dsimp only
    rw [if_neg hac]

theorem splitOnCh_sep_append (c : Char) (p t : List Char) (h : p.contains c = false) :
    splitOnCh c (p ++ c :: t) = p :: splitOnCh c t := by
  induction p with
  | nil =>
    show splitOnCh c (c :: t) = [] :: splitOnCh c t
    obtain ⟨piece, pieces, hs⟩ : ∃ piece pieces, splitOnCh c t = piece :: pieces := by
      cases hs : splitOnCh c t with
      | nil => exact absurd hs (splitOnCh_ne_nil c t)
      | cons piece pieces => exact ⟨piece, pieces, rfl⟩
    rw [hs]
    conv_lhs => unfold splitOnCh
    rw [hs]
    simp
  | cons a rest ih =>
    have hrest : rest.contains c = false := by
      cases hr : rest.contains c
      · rfl
      · have hmem : c ∈ a :: rest := by
          simp [List.contains] at hr ⊢
          exact Or.inr hr
        rw [show (a :: rest).contains c = true from by simpa [List.contains] using hmem] at h
        exact absurd h (by simp)
    have hac : a ≠ c := by
      intro hcon
      have hmem : (a :: rest).contains c = true := by simp [List.contains, hcon.symm]
      rw [hmem] at h
      exact absurd h (by simp)
    show splitOnCh c (a :: (rest ++ c :: t)) = (a :: rest) :: splitOnCh c t
    conv_lhs => unfold splitOnCh
    rw [ih hrest]
    dsimp only
    rw [if_neg hac]
theorem contains_eq_false_iff (l : List Char) (a : Char) : l.contains a = false ↔ a ∉ l := by
  simp [List.contains]

theorem contains_eq_true_iff (l : List Char) (a : Char) : l.contains a = true ↔ a ∈ l := by
  simp [List.contains]

theorem intStr_ne_nil (n : Int) : intStr n ≠ [] := by
  obtain ⟨c0, r0, h0, _⟩ := intStr_shape n
  rw [h0]
  simp

theorem intStr_all_nonspace (n : Int) : ∀ c ∈ intStr n, isPySpace c = false := by
  intro c hc
  rcases intStr_chars n c hc with hd | hd
  · exact isPySpace_of_digit c hd
  · rw [hd]
    decide

theorem formatPrimitive_safe (v : Value) (h : primSafe v = true) :
    formatPrimitive v ≠ [] ∧ isPySpace (formatPrimitive v).head! = false ∧
    isPySpace (formatPrimitive v).reverse.head! = false ∧
    (formatPrimitive v).contains '\n' = false := by
  cases v with
  | vnull => exact ⟨by decide, by decide, by decide, by decide⟩
  | vbool b => cases b <;> exact ⟨by decide, by decide, by decide, by decide⟩
  | vint n =>
    have hall := intStr_all_nonspace n
    have hne := intStr_ne_nil n
    have hedge := edge_nonspace (intStr n) hne hall
    show intStr n ≠ [] ∧ _ ∧ _ ∧ (intStr n).contains '\n' = false
    refine ⟨hne, hedge.1, hedge.2, ?_⟩
    rw [contains_eq_false_iff]
    intro hm
    rcases intStr_chars n _ hm with hd | hd
    · exact absurd hd (by decide)
    · exact absurd hd (by decide)
  | vstr s =>
    simp only [formatPrimitive]
    cases hq : needsQuotes s with
    | true =>
      simp only [if_true]
      have hnl : s.contains '\n' = false := by
        simp only [primSafe, strSafe] at h
        rw [hq] at h
        simpa using h
      have hnm : '\n' ∉ s := (contains_eq_false_iff s '\n').mp hnl
      refine ⟨by simp, rfl, ?_, ?_⟩
      · rw [revHead_append ('"' :: s) ['"'] (by simp)]
        decide
      · rw [contains_eq_false_iff]
        intro hm
        rcases List.mem_append.mp hm with h1 | h2
        · rcases List.mem_cons.mp h1 with h3 | h4
          · exact absurd h3 (by decide)
          · exact hnm h4
        · rcases List.mem_cons.mp h2 with h3 | h4
          · exact absurd h3 (by decide)
          · exact absurd h4 (by simp)
    | false =>
      simp only [Bool.false_eq_true, if_false]
      obtain ⟨hne, _, hws, hspec⟩ := needsQuotes_false_parts s hq
      refine ⟨hne, hws.1, hws.2, ?_⟩
      cases hc : s.contains '\n' with
      | false => rfl
      | true =>
        have hany : (":[],-\n\x0d\t".data).any (fun c => s.contains c) = true := by
          rw [List.any_eq_true]
          exact ⟨'\n', by decide, hc⟩
        rw [hany] at hspec
        cases hspec
  | vfloat lit => exact absurd h (by simp [primSafe])
  | vlist items => exact absurd h (by simp [primSafe])
  | vdict entries => exact absurd h (by simp [primSafe])

theorem parsePrimitive_formatPrimitive (v : Value) (h : primSafe v = true) :
    parsePrimitive (formatPrimitive v) = v := by
  cases v with
  | vnull => rfl
  | vbool b => cases b <;> rfl
  | vint n => exact parsePrimitive_intStr n
  | vstr s =>
    simp only [formatPrimitive]
    cases hq : needsQuotes s with
    | true =>
      simp only [if_true]
      exact parsePrimitive_quoted s
    | false =>
      simp only [Bool.false_eq_true, if_false]
      simp only [primSafe, strSafe] at h
      rw [hq] at h
      simp only [Bool.false_eq_true, if_false] at h
      exact parsePrimitive_unquoted s hq (by simpa using h)
  | vfloat lit => exact absurd h (by simp [primSafe])
  | vlist items => exact absurd h (by simp [primSafe])
  | vdict entries => exact absurd h (by simp [primSafe])
theorem joinWith_cons (sep q : List Char) (r : List (List Char)) (hr : r ≠ []) :
    joinWith sep (q :: r) = q ++ sep ++ joinWith sep r := by
  cases r with
  | nil => exact absurd rfl hr
  | cons a b => rfl

theorem joinWith_ne_nil (sep : List Char) :
    ∀ (ps : List (List Char)) (p : List Char), p ≠ [] → joinWith sep (ps ++ [p]) ≠ []
  | [], p, hp => by simpa [joinWith] using hp
  | q :: qs, p, hp => by
    rw [show (q :: qs) ++ [p] = q :: (qs ++ [p]) from rfl]
    rw [joinWith_cons sep q (qs ++ [p]) (by simp)]
    intro hcon
    rw [List.append_eq_nil] at hcon
    exact joinWith_ne_nil sep qs p hp hcon.2

theorem joinWith_head (sep p : List Char) (ps : List (List Char)) (hp : p ≠ []) :
    (joinWith sep (p :: ps)).head! = p.head! := by
  cases ps with
  | nil => rfl
  | cons a b =>
    rw [joinWith_cons sep p (a :: b) (by simp), List.append_assoc]
    cases p with
    | nil => exact absurd rfl hp
    | cons c r => rfl

theorem joinWith_revhead (sep : List Char) :
    ∀ (ps : List (List Char)) (p : List Char), p ≠ [] →
      (joinWith sep (ps ++ [p])).reverse.head! = p.reverse.head!
  | [], p, hp => rfl
  | q :: qs, p, hp => by
    rw [show (q :: qs) ++ [p] = q :: (qs ++ [p]) from rfl]
    rw [joinWith_cons sep q (qs ++ [p]) (by simp), List.append_assoc]
    rw [revHead_append q (sep ++ joinWith sep (qs ++ [p]))
      (fun hcon => joinWith_ne_nil sep qs p hp (List.append_eq_nil.mp hcon).2)]
    rw [revHead_append sep (joinWith sep (qs ++ [p])) (joinWith_ne_nil sep qs p hp)]
    exact joinWith_revhead sep qs p hp

theorem joinWith_strip (lines : List (List Char)) (hne : lines ≠ [])
    (hedges : ∀ l ∈ lines,
      l ≠ [] ∧ isPySpace l.head! = false ∧ isPySpace l.reverse.head! = false) :
    pyStrip (joinWith "\n".data lines) = joinWith "\n".data lines := by
  obtain ⟨p0, ps, hcons⟩ : ∃ p0 ps, lines = p0 :: ps := by
    cases lines with
    | nil => exact absurd rfl hne
    | cons a b => exact ⟨a, b, rfl⟩
  have hlast := List.dropLast_append_getLast hne
  have hp0 := hedges p0 (by rw [hcons]; simp)
  have hpl := hedges (lines.getLast hne) (List.getLast_mem hne)
  apply strip_self_of_edges
  · rw [← hlast]
    exact joinWith_ne_nil _ _ _ hpl.1
  · rw [hcons, joinWith_head "\n".data p0 ps hp0.1]
    exact hp0.2.1
  · rw [← hlast, joinWith_revhead "\n".data lines.dropLast (lines.getLast hne) hpl.1]
    exact hpl.2.2

theorem keySafe_parts (k : List Char) (hk : keySafe k = true) :
    pyStrip k = k ∧ k.contains ':' = false ∧ k.contains '[' = false ∧
    k.contains '\n' = false ∧ startsWithCh '-' k = false := by
  unfold keySafe at hk
  simp only [Bool.and_eq_true, Bool.not_eq_true', decide_eq_true_eq] at hk
  exact ⟨hk.1.1.1.1, hk.1.1.1.2, hk.1.1.2, hk.1.2, hk.2⟩

theorem beforeCh_key (c : Char) (k t : List Char) (hk : k.contains c = false) :
    beforeCh c (k ++ c :: t) = k := by
  have hall : ∀ x ∈ k, (fun a => decide (a ≠ c)) x = true := by
    intro x hx
    simp only [decide_eq_true_eq]
    intro hcon
    exact (contains_eq_false_iff k c).mp hk (hcon ▸ hx)
  unfold beforeCh
  rw [takeWhile_append_all _ k _ hall, List.takeWhile_cons]
  simp

theorem afterCh_key (c : Char) (k t : List Char) (hk : k.contains c = false) :
    afterCh c (k ++ c :: t) = t := by
  have hall : ∀ x ∈ k, (fun a => decide (a ≠ c)) x = true := by
    intro x hx
    simp only [decide_eq_true_eq]
    intro hcon
    exact (contains_eq_false_iff k c).mp hk (hcon ▸ hx)
  unfold afterCh
  rw [dropWhile_append_all _ k _ hall, List.dropWhile_cons]
  simp

theorem entryLine_edges (k : List Char) (v : Value) (hk : keySafe k = true)
    (hp : primSafe v = true) :
    entryLine (k, v) ≠ [] ∧ isPySpace (entryLine (k, v)).head! = false ∧
    isPySpace (entryLine (k, v)).reverse.head! = false ∧
    (entryLine (k, v)).contains '\n' = false := by
  obtain ⟨hkstrip, hkcolon, hkbr, hknl, hkdash⟩ := keySafe_parts k hk
  obtain ⟨hfne, hfh, hfr, hfnl⟩ := formatPrimitive_safe v hp
  have hshape : entryLine (k, v) = (k ++ [':', ' ']) ++ formatPrimitive v := rfl
  refine ⟨?_, ?_, ?_, ?_⟩
  · rw [hshape]
    intro hcon
    rw [List.append_eq_nil, List.append_eq_nil] at hcon
    exact absurd hcon.1.2 (by simp)
  · rw [hshape, List.append_assoc]
    cases k with
    | nil => rfl
    | cons c r =>
      show isPySpace c = false
      have hself := (pyStrip_eq_self_iff c r).mp hkstrip
      simpa using hself.1
  · rw [hshape, revHead_append (k ++ [':', ' ']) (formatPrimitive v) hfne]
    exact hfr
  · rw [hshape, contains_eq_false_iff]
    intro hm
    have hknm := (contains_eq_false_iff k '\n').mp hknl
    have hfnm := (contains_eq_false_iff (formatPrimitive v) '\n').mp hfnl
    rcases List.mem_append.mp hm with h1 | h2
    · rcases List.mem_append.mp h1 with h3 | h4
      · exact hknm h3
      · rcases List.mem_cons.mp h4 with h5 | h6
        · exact absurd h5 (by decide)
        · rcases List.mem_cons.mp h6 with h7 | h8
          · exact absurd h7 (by decide)
          · exact absurd h8 (by simp)
    · exact hfnm h2

theorem entryLine_decode (k : List Char) (v : Value) (hk : keySafe k = true)
    (hp : primSafe v = true) :
    (entryLine (k, v)).contains ':' = true ∧
    startsWithCh '-' (entryLine (k, v)) = false ∧
    pyStrip (beforeCh ':' (entryLine (k, v))) = k ∧
    pyStrip (afterCh ':' (entryLine (k, v))) = formatPrimitive v := by
  obtain ⟨hkstrip, hkcolon, hkbr, hknl, hkdash⟩ := keySafe_parts k hk
  obtain ⟨hfne, hfh, hfr, hfnl⟩ := formatPrimitive_safe v hp
  have hshape : entryLine (k, v) = k ++ (':' :: ' ' :: formatPrimitive v) := by
    show (k ++ [':', ' ']) ++ formatPrimitive v = _
    rw [List.append_assoc]
    rfl
  refine ⟨?_, ?_, ?_, ?_⟩
  · rw [contains_eq_true_iff, hshape]
    simp
  · rw [hshape]
    cases k with
    | nil => rfl
    | cons c r => exact hkdash
  · rw [hshape, beforeCh_key ':' k _ hkcolon]
    exact hkstrip
  · rw [hshape, afterCh_key ':' k _ hkcolon]
    rw [pyStrip_cons_space ' ' _ (by decide)]
    exact strip_self_of_edges _ hfne hfh hfr
theorem splitOnCh_joinWith (c : Char) :
    ∀ (lines : List (List Char)), lines ≠ [] →
      (∀ l ∈ lines, l.contains c = false) →
      splitOnCh c (joinWith [c] lines) = lines
  | [], hne, _ => absurd rfl hne
  | [p], _, hall => by
    show splitOnCh c p = [p]
    exact splitOnCh_no_sep c p (hall p (by simp))
  | p :: q :: rest, _, hall => by
    rw [joinWith_cons [c] p (q :: rest) (by simp), List.append_assoc]
    rw [show ([c] ++ joinWith [c] (q :: rest) : List Char) = c :: joinWith [c] (q :: rest) from rfl]
    rw [splitOnCh_sep_append c p _ (hall p (by simp))]
    rw [splitOnCh_joinWith c (q :: rest) (by simp)
      (fun l hl => hall l (List.mem_cons_of_mem p hl))]

theorem decodeLoop_done (o : DecodeOptions) (lines : List (List Char)) (fuel i : Nat)
    (acc : List (List Char × Value)) (hi : ¬ i < lines.length) :
    decodeLoop o lines fuel i acc = some acc := by
  rw [decodeLoop.eq_def]
  dsimp only
  rw [if_neg hi]

theorem decodeLoop_step_simple (o : DecodeOptions) (lines : List (List Char)) (fuel i : Nat)
    (acc : List (List Char × Value)) (hi : i < lines.length)
    (hstrip : pyStrip (lines.getD i []) = lines.getD i []) (hne : lines.getD i [] ≠ [])
    (hcolon : (lines.getD i []).contains ':' = true)
    (hdash : startsWithCh '-' (lines.getD i []) = false)
    (hnest : (decide (i + 1 < lines.length) &&
        decide (indentOf (lines.getD (i + 1) []) > indentOf (lines.getD i []))) = false)
    (hnobrack : (pyStrip (beforeCh ':' (lines.getD i []))).contains '[' = false) :
    decodeLoop o lines (fuel + 1) i acc =
      decodeLoop o lines fuel (i + 1)
        (dictInsert acc (pyStrip (beforeCh ':' (lines.getD i [])))
          (parsePrimitive (pyStrip (afterCh ':' (lines.getD i []))))) := by
  conv_lhs => rw [decodeLoop]
  rw [if_pos hi]
  simp at hstrip hne hcolon hdash hnest hnobrack
  simp [hstrip, hne, hcolon, hdash, hnest, hnobrack]
  intro h1 h2
  exact absurd h2 (Nat.not_lt.mpr (hnest h1))
theorem encodeEntry_prim (o : EncodeOptions) (k : List Char) (v : Value) (level : Nat)
    (hp : primSafe v = true) :
    encodeEntry o k v level =
      [spaces (o.indent * level) ++ k ++ ": ".data ++ formatPrimitive v] := by
  cases v with
  | vnull => simp [encodeEntry, formatPrimitive]
  | vbool b => simp [encodeEntry, formatPrimitive]
  | vint n => simp [encodeEntry, formatPrimitive]
  | vstr s => simp [encodeEntry, formatPrimitive]
  | vfloat lit => exact absurd hp (by simp [primSafe])
  | vlist items => exact absurd hp (by simp [primSafe])
  | vdict entries => exact absurd hp (by simp [primSafe])

theorem formatEntries_flat (o : EncodeOptions) :
    ∀ (entries : List (List Char × Value)),
      (∀ e ∈ entries, primSafe e.2 = true) →
      formatEntries o entries 0 = entries.map entryLine
  | [], _ => by simp [formatEntries]
  | (k, v) :: rest, h => by
    simp only [formatEntries]
    rw [encodeEntry_prim o k v 0 (h (k, v) (by simp))]
    rw [formatEntries_flat o rest (fun e he => h e (List.mem_cons_of_mem _ he))]
    simp [entryLine, spaces]
theorem decodeLoop_flat (o : DecodeOptions) (entries : List (List Char × Value))
    (hsafe : ∀ e ∈ entries, keySafe e.1 = true ∧ primSafe e.2 = true)
    (hnodup : (entries.map Prod.fst).Nodup) :
    ∀ (rest pre : List (List Char × Value)) (fuel : Nat),
      entries = pre ++ rest → rest.length ≤ fuel →
      decodeLoop o (entries.map entryLine) fuel pre.length pre = some entries
  | [], pre, fuel, heq, _ => by
    have hpre : entries = pre := by rw [heq]; simp
    subst hpre
    apply decodeLoop_done
    simp
  | e :: rest, pre, fuel, heq, hfuel => by
    obtain ⟨k, v⟩ := e
    obtain ⟨fuel', rfl⟩ : ∃ f, fuel = f + 1 := by
      cases fuel with
      | zero => exact absurd hfuel (by simp)
      | succ f => exact ⟨f, rfl⟩
    have hmem : (k, v) ∈ entries := by rw [heq]; simp
    obtain ⟨hk, hp⟩ := hsafe (k, v) hmem
    have hlineD : (entries.map entryLine).getD pre.length [] = entryLine (k, v) := by
      rw [show entries.map entryLine =
            (pre.map entryLine) ++ entryLine (k, v) :: rest.map entryLine from by rw [heq]; simp]
      rw [← List.length_map pre entryLine]
      exact getD_append_mid _ _ _
    obtain ⟨hEne, hEh, hEr, hEnl⟩ := entryLine_edges k v hk hp
    obtain ⟨hEcolon, hEdash, hEbefore, hEafter⟩ := entryLine_decode k v hk hp
    have hstripE : pyStrip (entryLine (k, v)) = entryLine (k, v) :=
      strip_self_of_edges _ hEne hEh hEr
    have hlen : (entries.map entryLine).length = pre.length + rest.length + 1 := by
      rw [heq]
      simp
      omega
    have hi : pre.length < (entries.map entryLine).length := by omega
    have hnest : (decide (pre.length + 1 < (entries.map entryLine).length) &&
        decide (indentOf ((entries.map entryLine).getD (pre.length + 1) []) >
          indentOf ((entries.map entryLine).getD pre.length []))) = false := by
      cases rest with
      | nil =>
        have hno : ¬ (pre.length + 1 < (entries.map entryLine).length) := by
          rw [heq]
          simp
        simp at hno ⊢
        intro h1
        exact absurd h1 (Nat.not_lt.mpr hno)
      | cons e2 rest2 =>
        obtain ⟨k2, v2⟩ := e2
        have hmem2 : (k2, v2) ∈ entries := by rw [heq]; simp
        obtain ⟨hk2, hp2⟩ := hsafe (k2, v2) hmem2
        obtain ⟨hEne2, hEh2, _, _⟩ := entryLine_edges k2 v2 hk2 hp2
        have hlineD2 : (entries.map entryLine).getD (pre.length + 1) [] =
            entryLine (k2, v2) := by
          rw [show entries.map entryLine =
                ((pre.map entryLine) ++ [entryLine (k, v)]) ++
                  entryLine (k2, v2) :: rest2.map entryLine from by rw [heq]; simp]
          rw [show pre.length + 1 = ((pre.map entryLine) ++ [entryLine (k, v)]).length from
            by simp]
          exact getD_append_mid _ _ _
        rw [hlineD2, indentOf_zero _ hEne2 hEh2]
        simp
    rw [decodeLoop_step_simple o (entries.map entryLine) fuel' pre.length pre hi
      (by rw [hlineD]; exact hstripE) (by rw [hlineD]; exact hEne)
      (by rw [hlineD]; exact hEcolon) (by rw [hlineD]; exact hEdash)
      hnest
      (by rw [hlineD, hEbefore]; exact (keySafe_parts k hk).2.2.1)]
    rw [hlineD, hEbefore, hEafter, parsePrimitive_formatPrimitive v hp]
    have hknotin : k ∉ pre.map Prod.fst := by
      intro hmem'
      have hnd := hnodup
      rw [heq, List.map_append] at hnd
      exact (List.nodup_append.mp hnd).2.2 hmem'
        (by rw [List.map_cons]; exact List.mem_cons_self _ _)
    rw [dictInsert_not_mem pre k v hknotin]
    rw [show pre.length + 1 = (pre ++ [(k, v)]).length from by simp]
    exact decodeLoop_flat o entries hsafe hnodup rest (pre ++ [(k, v)]) fuel'
      (by rw [heq]; simp) (by rw [List.length_cons] at hfuel; omega)
/-- C1 (amended): the decode-encode round trip holds for flat documents:
objects whose values are all safe primitives (null, booleans, integers and
safe strings) under safe, pairwise distinct keys; decoding the encoding
returns exactly the original object. -/
theorem C1_roundtrip_flat (entries : List (List Char × Value)) (h : flatSafe entries) :
    decodeFromToon (encodeToToon (Value.vdict entries) {}) {} =
      some (Value.vdict entries) := by
  obtain ⟨hsafe, hnodup⟩ := h
  have henc : encodeToToon (Value.vdict entries) {} =
      joinWith "\n".data (entries.map entryLine) := by
    simp only [encodeToToon, formatValue]
    rw [formatEntries_flat {} entries (fun e he => (hsafe e he).2)]
  cases entries with
  | nil =>
    rw [henc]
    rfl
  | cons e0 r0 =>
    have hedges : ∀ l ∈ (e0 :: r0).map entryLine,
        l ≠ [] ∧ isPySpace l.head! = false ∧ isPySpace l.reverse.head! = false := by
      intro l hl
      obtain ⟨e, he, hrfl⟩ := List.mem_map.mp hl
      obtain ⟨hek, hep⟩ := hsafe e he
      obtain ⟨hA, hB, hC, _⟩ := entryLine_edges e.1 e.2 hek hep
      rw [← hrfl]
      exact ⟨hA, hB, hC⟩
    have hnonl : ∀ l ∈ (e0 :: r0).map entryLine, l.contains '\n' = false := by
      intro l hl
      obtain ⟨e, he, hrfl⟩ := List.mem_map.mp hl
      obtain ⟨hek, hep⟩ := hsafe e he
      obtain ⟨_, _, _, hD⟩ := entryLine_edges e.1 e.2 hek hep
      rw [← hrfl]
      exact hD
    have hmapne : (e0 :: r0).map entryLine ≠ [] := by simp
    have hdec : decodeLines (encodeToToon (Value.vdict (e0 :: r0)) {}) =
        (e0 :: r0).map entryLine := by
      unfold decodeLines
      rw [henc, joinWith_strip _ hmapne hedges]
      rw [show ("\n".data : List Char) = ['\n'] from rfl]
      exact splitOnCh_joinWith '\n' _ hmapne hnonl
    simp only [decodeFromToon]
    rw [hdec]
    have hloop := decodeLoop_flat {} (e0 :: r0) hsafe hnodup (e0 :: r0) []
      (((e0 :: r0).map entryLine).length + 1) rfl (by simp)
    rw [show (List.length ([] : List (List Char × Value))) = 0 from rfl] at hloop
    rw [hloop]
    rfl
/-- C1 witness: a concrete three-entry flat document is safe and round
trips through encode and decode unchanged. -/
theorem C1_roundtrip_flat_witness :
    flatSafe c1FlatDoc ∧
    decodeFromToon (encodeToToon (Value.vdict c1FlatDoc) {}) {} =
      some (Value.vdict c1FlatDoc) :=
  ⟨⟨by decide, by decide⟩, C1_roundtrip_flat c1FlatDoc ⟨by decide, by decide⟩⟩

/-- C1 (counterexample): the round-trip claim fails already on a singly
nested object in the image of normalize: after the nested object is parsed,
the decode loop resumes on the last nested line and duplicates its key at
top level, so decoding the encoding of a one-key document yields a two-key
document. -/
theorem C1_counterexample :
    pyNormalize c1NestedPy = c1NestedPy ∧
    decodeFromToon (encodeToToon c1Nested {}) {} ≠ some c1Nested := by
  have hnorm : pyNormalize c1NestedPy = c1NestedPy := by
    simp [c1NestedPy, pyNormalize, pyNormalizeEntries, pyNormalizeList]
  have henc : encodeToToon c1Nested {} = "a:\n  b: 1".data := by
    simp [encodeToToon, c1Nested, formatValue, formatEntries, encodeEntry,
      formatPrimitive, joinWith, spaces, intStr, natStr, natToChars]
    all_goals decide
  refine ⟨hnorm, fun h => ?_⟩
  rw [henc] at h
  have hdec : decodeFromToon "a:\n  b: 1".data {} =
      some (Value.vdict [("a".data, Value.vdict [("b".data, Value.vint 1)]),
                         ("b".data, Value.vint 1)]) := rfl
  rw [hdec] at h
  simp [c1Nested] at h

/-- C2: decode does not terminate on every input.  On an input whose nested
object body is indented by less than one indent unit, the parse-nested
helper returns the caller index unchanged, the loop re-reads the same line
forever, and no amount of fuel makes the loop finish; the claim (and the
spec) require termination on every finite input, so this is a bug in the
code. -/
theorem C2_decode_diverges :
    (∀ fuel result, decodeLoop {} (decodeLines c2Input) fuel 0 result = none) ∧
    decodeFromToon c2Input {} = none := by
  constructor
  · intro fuel
    induction fuel with
    | zero => intro result; rfl
    | succ n ih =>
      intro result
      exact ih (dictInsert result "a".data (Value.vdict []))
  · rfl

/-- C3 (counterexample): strict decode of a document declaring 3 tabular
elements over 2 data rows does not raise any length-mismatch error; the
current decoder has no error path at all and returns the two parsed rows. -/
theorem C3_counterexample :
    decodeFromToon c3Doc { indent := 2, strict := true } = some c3Result := rfl

/-- C3 (amended): decode ignores the declared tabular count and the strict
flag entirely; under both strict and lenient options the declared-3, 2-row
document succeeds with the same 2-element array. -/
theorem C3_both_modes :
    decodeFromToon c3Doc { indent := 2, strict := true } = some c3Result ∧
    decodeFromToon c3Doc { indent := 2, strict := false } = some c3Result := ⟨rfl, rfl⟩

/-- C4 (counterexample): the array classifier of the old parser maps the
empty array to List, not to Primitive as the claim states (the encoder
never consults it for empty arrays). -/
theorem C4_counterexample :
    detectArrayType [] ≠ ArrayType.primitive ∧ detectArrayType [] = ArrayType.listKind := by
  exact ⟨by decide, rfl⟩

/-- C4 (amended): the empty array is classified List; the encoder
short-circuits it to a zero header, so the one-key document with an empty
array encodes to the single line the claim gives; decoding that line,
however, returns the empty object, because a line without a colon is
skipped by the old parse-lines loop, not parsed back into an empty array. -/
theorem C4_empty_array :
    detectArrayType [] = ArrayType.listKind ∧
    oldEncode {} (PyVal.pdict [("items".data, PyVal.plist [])]) = .ok "items [0]".data ∧
    oldDecode {} "items [0]".data = .ok (Value.vdict []) := by
  refine ⟨rfl, ?_, rfl⟩
  have hn : pyNormalize (PyVal.pdict [("items".data, PyVal.plist [])]) =
      PyVal.pdict [("items".data, PyVal.plist [])] := by
    simp [pyNormalize, pyNormalizeEntries, pyNormalizeList]
  unfold oldEncode
  rw [hn]
  rfl

/-- C5 (counterexample): the dot-five string parses fully as a number, so
the claimed rule demands quotes, but the encoder only attempts the float
parse when the first character is a digit or a sign, and a leading dot is
neither, so the string is left unquoted. -/
theorem C5_counterexample :
    needsQuotes ".5".data = false ∧ specNeedsQuotes ',' ".5".data = true := by
  exact ⟨rfl, by decide⟩

/-- C5 (amended): the encoder quotes s exactly when s is empty, a reserved
word, starts with a digit or sign and parses as a float, differs from its
trimmed form, or contains one of colon, brackets, comma, hyphen, newline,
carriage return, tab; the comma and carriage return are always in the set
and the configured delimiter is never consulted. -/
theorem C5_quoting_rule (s : List Char) : needsQuotes s = amendedNeedsQuotes s := by
  cases s with
  | nil => rfl
  | cons c rest =>
    have h4 : (isPySpace (c :: rest).head! || isPySpace ((c :: rest).reverse.head!))
        = decide (pyStrip (c :: rest) ≠ c :: rest) := by
      rw [Bool.eq_iff_iff]
      simp only [Bool.or_eq_true, decide_eq_true_eq, List.head!]
      constructor
      · intro h hs
        rcases (pyStrip_eq_self_iff c rest).mp hs with ⟨h1, h2⟩
        rcases h with h | h
        · exact h1 h
        · exact h2 h
      · intro h
        by_contra hcon
        push_neg at hcon
        exact h ((pyStrip_eq_self_iff c rest).mpr ⟨hcon.1, hcon.2⟩)
    have h5 : ((":[],-\n\x0d\t".data).any (fun ch => (c :: rest).contains ch))
        = ((c :: rest).any (fun ch => ch ∈ (":[],-\n\x0d\t".data))) := by
      rw [Bool.eq_iff_iff]
      simp only [List.any_eq_true]
      constructor
      · rintro ⟨a, ha1, ha2⟩
        exact ⟨a, by simpa using ha2, by simpa using ha1⟩
      · rintro ⟨a, ha1, ha2⟩
        exact ⟨a, by simpa using ha2, by simpa using ha1⟩
    unfold needsQuotes amendedNeedsQuotes
    rw [h4, h5]
    rfl

/-- C6 (counterexample): under strict options, a tabular data row whose
comma-split width differs from the header width does not abort decoding
with any error: decode succeeds and the offending row is silently dropped
(there is no row-shape error anywhere in the current decoder). -/
theorem C6_counterexample :
    decodeFromToon c6Doc { indent := 2, strict := true } = some c6Result := rfl

/-- C6 (amended): in both strict and lenient modes the wrong-width row is
silently skipped and decode succeeds with the remaining rows. -/
theorem C6_row_skipped :
    decodeFromToon c6Doc { indent := 2, strict := true } = some c6Result ∧
    decodeFromToon c6Doc { indent := 2, strict := false } = some c6Result := ⟨rfl, rfl⟩

/-- C7: a uniform-key-set array of dicts takes the tabular branch of the
encoder, which emits one header line, one column-name line and one line per
element, regardless of how many keys each element has. -/
theorem C7_tabular_lines (o : EncodeOptions) (key : List Char) (level : Nat)
    (first : Value) (more : List Value)
    (hfirst : isDict first = true)
    (hall : (first :: more).all
      (fun item => isDict item && sameKeySet (dictKeys item) (dictKeys first)) = true) :
    (encodeEntry o key (Value.vlist (first :: more)) level).length
      = 2 + (first :: more).length := by
  unfold encodeEntry
  simp only [hfirst, hall, if_true]
  simp [List.length_map]
  omega

/-- C7 witness: a three-element, one-key array encodes to five lines. -/
theorem C7_tabular_lines_witness :
    isDict (Value.vdict [("id".data, Value.vint 1)]) = true ∧
    ((Value.vdict [("id".data, Value.vint 1)] ::
        [Value.vdict [("id".data, Value.vint 2)], Value.vdict [("id".data, Value.vint 3)]]).all
      (fun item => isDict item &&
        sameKeySet (dictKeys item) (dictKeys (Value.vdict [("id".data, Value.vint 1)]))) = true) ∧
    (encodeEntry {} "users".data
        (Value.vlist (Value.vdict [("id".data, Value.vint 1)] ::
          [Value.vdict [("id".data, Value.vint 2)], Value.vdict [("id".data, Value.vint 3)]])) 0).length
      = 2 + 3 := by
  refine ⟨by decide, by decide, ?_⟩
  exact C7_tabular_lines {} "users".data 0 (Value.vdict [("id".data, Value.vint 1)])
    [Value.vdict [("id".data, Value.vint 2)], Value.vdict [("id".data, Value.vint 3)]]
    (by decide) (by decide)

/-- C10: the top level of every successful decode is an object; an all
whitespace input decodes to the empty object; a nonblank line without a
colon is skipped by the loop, leaving the result untouched. -/
theorem C10_decode_shape :
    (∀ (s : List Char) (o : DecodeOptions) (v : Value),
        decodeFromToon s o = some v → ∃ entries, v = Value.vdict entries) ∧
    (∀ (s : List Char) (o : DecodeOptions),
        (∀ c ∈ s, isPySpace c = true) → decodeFromToon s o = some (Value.vdict [])) ∧
    (∀ (o : DecodeOptions) (lines : List (List Char)) (fuel i : Nat)
        (result : List (List Char × Value)),
        i < lines.length →
        pyStrip (lines.getD i []) ≠ [] →
        (pyStrip (lines.getD i [])).contains ':' = false →
        decodeLoop o lines (fuel + 1) i result = decodeLoop o lines fuel (i + 1) result) := by
  refine ⟨?_, ?_, ?_⟩
  · intro s o v h
    simp only [decodeFromToon] at h
    cases hd : decodeLoop o (decodeLines s) ((decodeLines s).length + 1) 0 [] with
    | none => rw [hd] at h; exact absurd h (by simp)
    | some entries =>
      rw [hd] at h
      exact ⟨entries, by simpa using h.symm⟩
  · intro s o hall
    have hlstrip : pyLstrip s = [] := by
      simp only [pyLstrip, List.dropWhile_eq_nil_iff]
      exact hall
    have hstrip : pyStrip s = [] := by
      simp [pyStrip, hlstrip, pyRstrip]
    unfold decodeFromToon decodeLines
    rw [hstrip]
    rfl
  · intro o lines fuel i result hi hne hnc
    conv_lhs => rw [decodeLoop]
    rw [if_pos hi]
    simp only [hne, if_neg, hnc, Bool.false_and, if_false]
    simp [hne, hnc]

/-- C10 witness: a one-entry document decodes to an object; two spaces
decode to the empty object; a colon-free line is skipped. -/
theorem C10_decode_shape_witness :
    (∃ entries, Value.vdict [("a".data, Value.vint 1)] = Value.vdict entries) ∧
    decodeFromToon "  ".data {} = some (Value.vdict []) ∧
    decodeLoop {} ["x".data] 1 0 [] = decodeLoop {} ["x".data] 0 1 [] := by
  refine ⟨C10_decode_shape.1 "a: 1".data {} _ rfl,
    C10_decode_shape.2.1 "  ".data {} (by decide),
    C10_decode_shape.2.2 {} ["x".data] 0 0 [] (by decide) (by decide) (by decide)⟩

theorem mem_warnings_addWarning {w : VErr} {r : VResult} {n : Nat} {msg ctx : List Char}
    (h : w ∈ r.warnings) : w ∈ (addWarning r n msg ctx).warnings := by
  simp only [addWarning, List.mem_append]
  exact Or.inl h

theorem mem_warnings_addError {w : VErr} {r : VResult} {n : Nat} {msg ctx : List Char}
    (h : w ∈ r.warnings) : w ∈ (addError r n msg ctx).warnings := h

theorem foldl_warn_mono {f : VResult → List Char → VResult}
    (hf : ∀ r m w, w ∈ r.warnings → w ∈ (f r m).warnings) :
    ∀ (msgs : List (List Char)) (r : VResult) (w : VErr),
      w ∈ r.warnings → w ∈ (msgs.foldl f r).warnings
  | [], _, _, h => h
  | m :: rest, r, w, h => foldl_warn_mono hf rest (f r m) w (hf r m w h)

theorem validateStep_mono (cfg : VConfig) (st : VState) (n : Nat) (l : List Char)
    (w : VErr) (h : w ∈ st.result.warnings) :
    w ∈ (validateStep cfg st n l).result.warnings := by
  have hby : ∀ r m w, w ∈ VResult.warnings r →
      w ∈ VResult.warnings (if cfg.level = VLevel.strict then addError r n m l
                            else addWarning r n m l) := by
    intro r m w hw
    split
    · exact mem_warnings_addError hw
    · exact mem_warnings_addWarning hw
  have haddW : ∀ r m w, w ∈ VResult.warnings r → w ∈ VResult.warnings (addWarning r n m l) :=
    fun _ _ _ hw => mem_warnings_addWarning hw
  have haddE : ∀ r m w, w ∈ VResult.warnings r → w ∈ VResult.warnings (addError r n m l) :=
    fun _ _ _ hw => mem_warnings_addError hw
  have h1 : w ∈ ((vValidateIndentation cfg l).foldl
      (fun r msg => if cfg.level = VLevel.strict then addError r n msg l
                    else addWarning r n msg l) st.result).warnings :=
    foldl_warn_mono hby _ _ _ h
  unfold validateStep
  dsimp only
  apply foldl_warn_mono haddW
  apply foldl_warn_mono haddW
  split
  · apply foldl_warn_mono hby
    split
    · split
      · dsimp only
        exact foldl_warn_mono haddE _ _ _ h1
      · dsimp only
        exact foldl_warn_mono haddE _ _ _ h1
    · dsimp only
      exact h1
  · split
    · split
      · dsimp only
        exact foldl_warn_mono haddE _ _ _ h1
      · dsimp only
        exact foldl_warn_mono haddE _ _ _ h1
    · dsimp only
      exact h1

theorem checkTypes_has_warning (n : Nat) (l : List Char) (r : VResult)
    (h : capitalizedLiteralLine l) :
    ∃ w ∈ ((vCheckTypes (pyStrip l)).foldl
      (fun r msg => addWarning r n msg l) r).warnings, w.lineNum = n := by
  obtain ⟨h1, h2, h3⟩ := h
  have hne : ∃ m rest, vCheckTypes (pyStrip l) = m :: rest := by
    unfold vCheckTypes
    rw [h1, h2]
    simp only [Bool.not_true, Bool.false_or, Bool.or_false, if_false]
    rcases h3 with h3 | h3 | h3 | h3 <;> rw [h3] <;> simp
  obtain ⟨m, rest, hm⟩ := hne
  rw [hm]
  have hmem : (⟨n, "WARNING".data, m, some l⟩ : VErr) ∈ (addWarning r n m l).warnings := by
    simp [addWarning]
  exact ⟨⟨n, "WARNING".data, m, some l⟩,
    foldl_warn_mono (fun _ _ _ hw => mem_warnings_addWarning hw) rest _ _ hmem, rfl⟩

theorem validateStep_adds_type_warning (cfg : VConfig) (st : VState) (n : Nat)
    (l : List Char) (h : capitalizedLiteralLine l) :
    ∃ w ∈ (validateStep cfg st n l).result.warnings, w.lineNum = n := by
  unfold validateStep
  exact checkTypes_has_warning n l _ h

theorem validateGo_mono (cfg : VConfig) :
    ∀ (ls : List (List Char)) (n : Nat) (st : VState) (w : VErr),
      w ∈ st.result.warnings → w ∈ (validateGo cfg ls n st).result.warnings
  | [], _, _, _, h => h
  | l :: rest, n, st, w, h => by
    unfold validateGo
    split
    · exact validateGo_mono cfg rest (n + 1) st w h
    · exact validateGo_mono cfg rest (n + 1) _ w (validateStep_mono cfg st n l w h)

theorem validateGo_has_warning (cfg : VConfig) :
    ∀ (ls : List (List Char)) (k n : Nat) (st : VState),
      k < ls.length → capitalizedLiteralLine (ls.getD k []) →
      ∃ w ∈ (validateGo cfg ls n st).result.warnings, w.lineNum = n + k
  | [], k, _, _, hk, _ => absurd hk (by simp)
  | l :: rest, 0, n, st, _, hline => by
    have hne : pyStrip l ≠ [] := by
      intro hnil
      have h1 := hline.1
      simp only [List.getD_cons_zero] at h1
      rw [hnil] at h1
      simp [List.contains] at h1
    unfold validateGo
    rw [if_neg hne]
    obtain ⟨w, hw, hwn⟩ :=
      validateStep_adds_type_warning cfg st n l (by simpa using hline)
    exact ⟨w, validateGo_mono cfg rest (n + 1) _ w hw, by omega⟩
  | l :: rest, k + 1, n, st, hk, hline => by
    unfold validateGo
    have hk' : k < rest.length := by
      rw [List.length_cons] at hk
      omega
    have hline' : capitalizedLiteralLine (rest.getD k []) := by simpa using hline
    split
    · obtain ⟨w, hw, hwn⟩ := validateGo_has_warning cfg rest k (n + 1) st hk' hline'
      exact ⟨w, hw, by omega⟩
    · obtain ⟨w, hw, hwn⟩ :=
        validateGo_has_warning cfg rest k (n + 1) (validateStep cfg st n l) hk' hline'
      exact ⟨w, hw, by omega⟩

/-- C9: at every validation level, a key-value line whose value is a
capitalized boolean or null literal (True, False, None, NULL) produces at
least one warning carrying that line's one-based number: the type check
runs unconditionally and every later check only appends diagnostics. -/
theorem C9_capitalized_literal_warning (cfg : VConfig) (s : List Char) (k : Nat)
    (hk : k < (splitOnCh '\n' s).length)
    (hline : capitalizedLiteralLine ((splitOnCh '\n' s).getD k [])) :
    ∃ w ∈ (validate cfg s).warnings, w.lineNum = k + 1 := by
  obtain ⟨w, hw, hwn⟩ :=
    validateGo_has_warning cfg (splitOnCh '\n' s) k 1 ⟨{}, false, none⟩ hk hline
  exact ⟨w, hw, by omega⟩

/-- C9 witness: the one-line document with a capitalized True under the
strict level carries a warning on line 1. -/
theorem C9_capitalized_literal_warning_witness :
    0 < (splitOnCh '\n' "a: True".data).length ∧
    capitalizedLiteralLine ((splitOnCh '\n' "a: True".data).getD 0 []) ∧
    ∃ w ∈ (validate {} "a: True".data).warnings, w.lineNum = 0 + 1 := by
  refine ⟨by decide, by decide, ?_⟩
  exact C9_capitalized_literal_warning {} "a: True".data 0 (by decide) (by decide)

/-- C8: type normalization is not idempotent.  The tuple and set branches of
normalize return their elements unnormalized, contradicting the stated
purpose of producing TOON-compatible values: a tuple inside a tuple
survives one normalization pass and only becomes a list on the second, so
applying normalize twice differs from applying it once. -/
theorem C8_not_idempotent :
    pyNormalize (pyNormalize c8Input) ≠ pyNormalize c8Input := by
  have h1 : pyNormalize c8Input = PyVal.plist [PyVal.ptuple [PyVal.pint 1, PyVal.pint 2]] := by
    simp [c8Input, pyNormalize]
  have h2 : pyNormalize (PyVal.plist [PyVal.ptuple [PyVal.pint 1, PyVal.pint 2]]) =
      PyVal.plist [PyVal.plist [PyVal.pint 1, PyVal.pint 2]] := by
    simp [pyNormalize, pyNormalizeList]
  rw [h1, h2]
  simp

end Toon
